import Mathlib

/-!
Launcher: SCM locator parsing, workspace provisioning and the launch chain

A shallow embedding of `launch.go`:

* `parseScmURL` / `scmPath.String` : the locator parser built on the regular
  expression `(.*):(.*)/(.*)#(.*)` and its renderer;
* `createWorkspace` : derivation of the workspace paths with `path.Join` and
  their creation through `stat` / `mkdirAll`;
* `launch` : the build, job, pipeline lookup chain followed by provisioning.

Go strings are byte sequences; they are embedded as Lean strings.  Every byte
the program inspects (`:`, `/`, `#`, `.`, newline) is ASCII, and an ASCII byte
never occurs inside a multi-byte UTF-8 sequence, so splitting by characters
and splitting by bytes cut a string at the same places.
-/

namespace Launcher

/-! ## Errors -/

/-- An operand handed to `fmt.Errorf`. -/
inductive Operand where
  /-- a string operand (`%v` / `%q` of a `string`) -/
  | str (s : String)
  /-- the `[][]string` operand: the result of `FindAllStringSubmatch` -/
  | matches (m : List (List String))
  /-- an `error` operand, identified with the text of its `Error()` method -/
  | err (text : String)
  deriving DecidableEq, Repr

/-- The value of `fmt.Errorf(format, args...)`: the format string together with
its operands.  The rendering of the verbs is not modelled. -/
structure GoError where
  format : String
  args : List Operand
  deriving DecidableEq, Repr

/-! ## The regular expression `(.*):(.*)/(.*)#(.*)` -/

/-- One element of the regular expression: a literal byte or the capturing
group `(.*)`. -/
inductive Tok where
  | lit (c : Char)
  | cap
  deriving DecidableEq, Repr

/-- The expression compiled by `regexp.MustCompile("(.*):(.*)/(.*)#(.*)")`. -/
def scmRegexp : List Tok :=
  [Tok.cap, Tok.lit ':', Tok.cap, Tok.lit '/', Tok.cap, Tok.lit '#', Tok.cap]

/-- Greedy `.*` followed by the continuation `k`: the loop first tries to
consume one more character (`.` matches everything but a newline) and only
when the remainder cannot be matched that way hands the input to `k`.  The
result is the captured text together with the result of `k`. -/
def dotStar {R : Type} (k : List Char → Option R) : List Char → Option (List Char × R)
  | [] => (k []).map (fun r => ([], r))
  | x :: xs =>
    if x = '\n' then (k (x :: xs)).map (fun r => ([], r))
    else
      match dotStar k xs with
      | some (g, r) => some (x :: g, r)
      | none => (k (x :: xs)).map (fun r => ([], r))

/-- Backtracking match of the expression at the start of the input: the
captured groups in order and the input left after the match. -/
def matchHere : List Tok → List Char → Option (List (List Char) × List Char)
  | [], s => some ([], s)
  | Tok.lit c :: p, s =>
    match s with
    | [] => none
    | x :: xs => if x = c then matchHere p xs else none
  | Tok.cap :: p, s =>
    (dotStar (matchHere p) s).map (fun r => (r.1 :: r.2.1, r.2.2))

/-- Leftmost match: the earliest start position at which `matchHere`
succeeds.  Returns the input from the start of the match on, the groups and
the input left after the match. -/
def findFrom (p : List Tok) : List Char → Option (List Char × List (List Char) × List Char)
  | [] => (matchHere p []).map (fun r => ([], r))
  | x :: xs =>
    match matchHere p (x :: xs) with
    | some r => some (x :: xs, r)
    | none => findFrom p xs

/-- The submatch slice of one match: the whole matched text followed by the
groups. -/
def submatch (start : List Char) (r : List (List Char) × List Char) : List String :=
  (String.mk (start.take (start.length - r.2.length)) :: r.1.map String.mk)

/-- The loop of `allMatches`: successive leftmost matches, each search resuming
where the previous match ended; at most `n` matches are delivered.  (The
expression contains three literal bytes, so a match is never empty and the
special treatment of empty matches does not arise.) -/
def allMatches (p : List Tok) : Nat → List Char → List (List String)
  | 0, _ => []
  | n + 1, s =>
    match findFrom p s with
    | none => []
    | some (start, r) => submatch start r :: allMatches p n r.2

/-- The call `re.FindAllStringSubmatch(s, -1)`: a negative count stands for
`len(s) + 1`.  The empty list is the `nil` result. -/
def FindAllStringSubmatch (p : List Tok) (s : String) : List (List String) :=
  allMatches p (s.data.length + 1) s.data

/-! ## `scmPath` and `parseScmURL` -/

structure scmPath where
  Host : String
  Org : String
  Repo : String
  Branch : String
  deriving DecidableEq, Repr

/-- The zero value `scmPath{}`. -/
def scmPath.zero : scmPath := ⟨"", "", "", ""⟩

/-- The method `String`: `fmt.Sprintf("%s:%s/%s#%s", s.Host, s.Org, s.Repo, s.Branch)`. -/
def scmPath.String (s : scmPath) : String :=
  s.Host ++ ":" ++ s.Org ++ "/" ++ s.Repo ++ "#" ++ s.Branch

/-- The element `matched[i][j]`, for indices that the caller has checked to be in range. -/
def at2 (m : List (List String)) (i j : Nat) : String :=
  (m.getD i []).getD j ""

def parseScmURL (url : String) : scmPath × Option GoError :=
  let matched := FindAllStringSubmatch scmRegexp url
  if matched = [] ∨ matched.length ≠ 1 ∨ (matched.getD 0 []).length ≠ 5 then
    (scmPath.zero,
      some ⟨"Unable to parse SCM URL %v, match: %q", [Operand.str url, Operand.matches matched]⟩)
  else
    (⟨at2 matched 0 1, at2 matched 0 2, at2 matched 0 3, at2 matched 0 4⟩, none)

/-! ## `path.Clean` and `path.Join` -/

/-- The backtracking loop of `Clean` on a `..` element, on the reversed output
buffer: `out.w--`, then `for out.w > dotdot && out.index(out.w) != '/' { out.w-- }`.
The byte read by `out.index(out.w)` is the one that was dropped last. -/
def backtrack (dotdot : Nat) : List Char → List Char
  | [] => []
  | x :: rest => if dotdot < rest.length ∧ x ≠ '/' then backtrack dotdot rest else rest

/-- The main loop of `Clean`: `p` is the unread part `path[r:]`, `out` the
contents of the output buffer (`out.w` is its length) and `dotdot` the index
below which the output may not be backtracked.  Each round consumes at least
one byte of `p`; the first argument bounds the number of rounds. -/
def cleanLoop (rooted : Bool) : Nat → List Char → List Char → Nat → List Char
  | 0, _, out, _ => out
  | _ + 1, [], out, _ => out
  | fuel + 1, c :: p, out, dotdot =>
    if c = '/' then
      -- empty path element
      cleanLoop rooted fuel p out dotdot
    else if c = '.' ∧ (p = [] ∨ p.head? = some '/') then
      -- . element
      cleanLoop rooted fuel p out dotdot
    else if c = '.' ∧ p.head? = some '.' ∧ (p.tail = [] ∨ p.tail.head? = some '/') then
      -- .. element: remove to last /
      if dotdot < out.length then
        cleanLoop rooted fuel p.tail (backtrack dotdot out.reverse).reverse dotdot
      else if rooted = false then
        cleanLoop rooted fuel p.tail
          ((if 0 < out.length then out ++ ['/'] else out) ++ ['.', '.'])
          ((if 0 < out.length then out ++ ['/'] else out) ++ ['.', '.']).length
      else
        cleanLoop rooted fuel p.tail out dotdot
    else
      -- real path element: add slash if needed, copy element
      cleanLoop rooted fuel ((c :: p).dropWhile (fun x => x ≠ '/'))
        ((if (rooted = true ∧ out.length ≠ 1) ∨ (rooted = false ∧ out.length ≠ 0)
            then out ++ ['/'] else out) ++ (c :: p).takeWhile (fun x => x ≠ '/'))
        dotdot

/-- The function `path.Clean`. -/
def Clean (path : String) : String :=
  if path = "" then "."
  else
    let rooted : Bool := path.data.head? = some '/'
    let out :=
      if rooted then cleanLoop true path.data.length path.data.tail ['/'] 1
      else cleanLoop false path.data.length path.data [] 0
    if out.length = 0 then "." else String.mk out

/-- The function `path.Join`: empty leading elements are ignored, the others
are joined with slashes and the result is cleaned; all elements empty gives
the empty string. -/
def Join (elem : List String) : String :=
  match elem.dropWhile (fun e => e = "") with
  | [] => ""
  | e :: es => Clean (String.intercalate "/" (e :: es))

/-! ## The world: filesystem and collaborators -/

/-- The calls the program makes to its collaborators, as they are recorded in
the trace of the world. -/
inductive Call where
  | stat (name : String)
  | mkdirAll (path : String) (perm : Nat)
  | BuildFromID (buildID : String)
  | JobFromID (jobID : String)
  | PipelineFromID (pipelineID : String)
  deriving DecidableEq, Repr

/-- The state of the world around one run.

* `dirs`: the paths that exist, that is the names on which `os.Stat` returns no
  error;
* `mkdirErr`: for each path the error with which `os.MkdirAll` fails on it, if
  it does;
* `trace`: the calls made so far;
* `aliases`: for each path, the names outside its own chain of parents that come
  into existence when `os.MkdirAll` creates it, that is the names that reach
  the new directories through symbolic links;
* `residue`: for each path, the names a failing `os.MkdirAll` leaves behind,
  that is the parents it had created before it failed;
* `siblings`: `src` and `artifacts` are different entries of the directory
  `/sd/workspace`.  Creating the entry `src` leaves the entry `artifacts` as it
  was, so the name `/sd/workspace/artifacts` can come into existence together
  with `/sd/workspace/src` only when it is a dangling symbolic link, and
  creating a directory under the name of such a link fails. -/
structure World where
  dirs : List String
  mkdirErr : String → Option String
  trace : List Call
  aliases : String → List String
  residue : String → List String
  siblings : "/sd/workspace/artifacts" ∈ aliases "/sd/workspace/src" →
    mkdirErr "/sd/workspace/artifacts" ≠ none

/-- The directories `os.MkdirAll(p)` makes sure exist: every non-empty proper
prefix of `p` that is followed by a slash, and `p` itself. -/
def mkdirChain (p : String) : List String :=
  ((List.range p.data.length).filterMap (fun i =>
      if 0 < i ∧ p.data.getD i ' ' = '/' then some (String.mk (p.data.take i)) else none))
    ++ [p]

/-- The variable `stat`, bound to `os.Stat`: the error is `nil` exactly on the
paths that exist.  Only the error is used by the program. -/
def stat (name : String) (w : World) : Option String × World :=
  (if name ∈ w.dirs then none else some ("stat " ++ name ++ ": no such file or directory"),
    { w with trace := w.trace ++ [Call.stat name] })

/-- The variable `mkdirAll`, bound to `os.MkdirAll`.  On a path that exists the
filesystem is not changed.  Otherwise, when the creation succeeds the path and
its parents exist afterwards, together with the names aliased to them through
symbolic links; when it fails, the parents created before the failure are
left behind. -/
def mkdirAll (path : String) (perm : Nat) (w : World) : Option String × World :=
  match w.mkdirErr path with
  | some e =>
    (some e, { w with dirs := if path ∈ w.dirs then w.dirs else w.dirs ++ w.residue path,
                      trace := w.trace ++ [Call.mkdirAll path perm] })
  | none =>
    (none, { w with dirs := if path ∈ w.dirs then w.dirs
                            else w.dirs ++ mkdirChain path ++ w.aliases path,
                    trace := w.trace ++ [Call.mkdirAll path perm] })

/-! ## `createWorkspace` -/

structure Workspace where
  Root : String
  Src : String
  Artifacts : String
  deriving DecidableEq, Repr

/-- The zero value `Workspace{}`. -/
def Workspace.zero : Workspace := ⟨"", "", ""⟩

/-- The loop `for _, p := range paths` of `createWorkspace`, with its two early
returns; `none` when the loop runs to its end. -/
def provision : List String → World → Option GoError × World
  | [], w => (none, w)
  | p :: ps, w =>
    let r := stat p w
    if r.1 = none then
      (some ⟨"Cannot create workspace path %q, path already exists.", [Operand.str p]⟩, r.2)
    else
      let m := mkdirAll p 0o777 r.2
      match m.1 with
      | some e => (some ⟨"Cannot create workspace path %q: %v", [Operand.str p, Operand.err e]⟩, m.2)
      | none => provision ps m.2

def createWorkspace (srcPaths : List String) (w : World) : (Workspace × Option GoError) × World :=
  let root := "/sd/workspace"
  let srcPaths := "src" :: srcPaths
  let src := Join srcPaths
  let src := Join [root, src]
  let artifacts := Join [root, "artifacts"]
  let paths := [src, artifacts]
  match provision paths w with
  | (some e, w') => ((Workspace.zero, some e), w')
  | (none, w') => ((⟨root, src, artifacts⟩, none), w')

/-! ## `launch` -/

/-- Modelled from the spec: the `Build` record of the `screwdriver` package,
which is not among the sources; `launch` reads its job ID. -/
structure Build where
  JobID : String

/-- Modelled from the spec: the `Job` record of the `screwdriver` package,
which is not among the sources; `launch` reads its pipeline ID. -/
structure Job where
  PipelineID : String

/-- Modelled from the spec: the `Pipeline` record of the `screwdriver` package,
which is not among the sources; `launch` reads its SCM locator. -/
structure Pipeline where
  ScmURL : String

/-- Modelled from the spec: the interface `screwdriver.API`, which is not among
the sources: three lookups by ID, each returning a record and an error (given
by its text, `none` for `nil`). -/
structure API where
  BuildFromID : String → Build × Option String
  JobFromID : String → Job × Option String
  PipelineFromID : String → Pipeline × Option String

/-- Records a call in the trace. -/
def World.log (w : World) (c : Call) : World :=
  { w with trace := w.trace ++ [c] }

def launch (api : API) (buildID : String) (w : World) : Option GoError × World :=
  let w1 := w.log (Call.BuildFromID buildID)
  match api.BuildFromID buildID with
  | (_, some err) =>
    (some ⟨"fetching build ID %q: %v", [Operand.str buildID, Operand.err err]⟩, w1)
  | (b, none) =>
    let w2 := w1.log (Call.JobFromID b.JobID)
    match api.JobFromID b.JobID with
    | (_, some err) =>
      (some ⟨"fetching Job ID %q: %v", [Operand.str b.JobID, Operand.err err]⟩, w2)
    | (j, none) =>
      let w3 := w2.log (Call.PipelineFromID j.PipelineID)
      match api.PipelineFromID j.PipelineID with
      | (_, some err) =>
        (some ⟨"fetching Pipeline ID %q: %v", [Operand.str j.PipelineID, Operand.err err]⟩, w3)
      | (p, none) =>
        let scm := (parseScmURL p.ScmURL).1
        let r := createWorkspace [scm.Org, scm.Repo] w3
        match r.1.2 with
        | some err => (some err, r.2)
        | none => (none, r.2)

/-! ## Notions used in the statements and proofs -/

/-- Declarative reading of a match: the input splits into the groups (each
free of newlines) and the literals, in order, followed by `rest`. -/
def Dec : List Tok → List Char → List (List Char) → List Char → Prop
  | [], s, caps, rest => caps = [] ∧ rest = s
  | Tok.lit c :: p, s, caps, rest => ∃ s', s = c :: s' ∧ Dec p s' caps rest
  | Tok.cap :: p, s, caps, rest =>
    ∃ g s' caps', s = g ++ s' ∧ '\n' ∉ g ∧ caps = g :: caps' ∧ Dec p s' caps' rest

/-- The path elements of a string: the pieces between its slashes. -/
def elems : List Char → List (List Char)
  | [] => [[]]
  | c :: p =>
    if c = '/' then [] :: elems p
    else
      match elems p with
      | [] => [[c]]
      | e :: es => (c :: e) :: es

/-- The elements `Clean` copies when there is no `..`: all but the empty ones
and `.`. -/
def keep (e : List Char) : Bool := decide (e ≠ []) && decide (e ≠ ['.'])

/-- Appending one element to the output buffer, with the slash `Clean` puts
before it when the buffer holds more than the root. -/
def pushComp (rooted : Bool) (out e : List Char) : List Char :=
  (if (rooted = true ∧ out.length ≠ 1) ∨ (rooted = false ∧ out.length ≠ 0)
    then out ++ ['/'] else out) ++ e

/-- The elements with a slash before each. -/
def slashed (es : List (List Char)) : List Char :=
  (es.map (fun e => '/' :: e)).flatten

/-- The elements of the segments that `Clean` keeps. -/
def keptElems (segs : List String) : List (List Char) :=
  ((segs.map (fun s => elems s.data)).flatten).filter keep

/-- A plain directory name: non-empty, without a slash, and neither `.` nor
`..`. -/
abbrev PlainName (s : String) : Prop :=
  s ≠ "" ∧ '/' ∉ s.data ∧ s ≠ "." ∧ s ≠ ".."

/-- A world without symbolic links, in which no call has been made yet:
nothing is aliased and a failing creation leaves nothing behind. -/
def World.plain (dirs : List String) (mkdirErr : String → Option String) : World :=
  { dirs := dirs, mkdirErr := mkdirErr, trace := [], aliases := fun _ => [],
    residue := fun _ => [], siblings := by intro h; cases h }

/-- A world in which `/sd/workspace/src/org` is a symbolic link to
`/sd/workspace`, so that creating `/sd/workspace/src/org/artifacts` makes the
directory `/sd/workspace/artifacts`.  Of the names that reach a directory
through the link only those are listed that `createWorkspace` looks at. -/
def linkedWorld : World :=
  { dirs := ["/", "/sd", "/sd/workspace", "/sd/workspace/src", "/sd/workspace/src/org"],
    mkdirErr := fun _ => none,
    trace := [],
    aliases := fun p =>
      if p = "/sd/workspace/src/org/artifacts" then ["/sd/workspace/artifacts"] else [],
    residue := fun _ => [],
    siblings := by decide }

/-- An implementation of the lookups that answers every request with the job
"job-1", the pipeline "pipeline-1" and the given locator, and with the given
errors. -/
def exampleAPI (buildErr jobErr pipelineErr : Option String) (scmURL : String) : API :=
  ⟨fun _ => (⟨"job-1"⟩, buildErr), fun _ => (⟨"pipeline-1"⟩, jobErr),
    fun _ => (⟨scmURL⟩, pipelineErr)⟩

/-! ## Facts about the matcher -/

theorem dotStar_eq_none {R : Type} (k : List Char → Option R) (s : List Char) :
    dotStar k s = none ↔ ∀ u v, s = u ++ v → '\n' ∉ u → k v = none := by
  induction s with
  | nil =>
    simp only [dotStar, Option.map_eq_none']
    constructor
    · intro h u v huv _
      have hv : v = [] := (List.append_eq_nil.mp huv.symm).2
      rw [hv]; exact h
    · intro h
      exact h [] [] rfl (by simp)
  | cons x xs ih =>
    by_cases hx : x = '\n'
    · simp only [dotStar, hx, if_true, Option.map_eq_none']
      constructor
      · intro h u v huv hu
        cases u with
        | nil => simp at huv; rw [← huv]; exact h
        | cons y ys =>
          simp at huv
          exact absurd (huv.1 ▸ List.mem_cons_self _ _) hu
      · intro h
        exact h [] _ rfl (by simp)
    · simp only [dotStar, hx, if_false]
      cases hd : dotStar k xs with
      | none =>
        simp only [Option.map_eq_none']
        rw [ih] at hd
        constructor
        · intro h u v huv hu
          cases u with
          | nil => simp at huv; rw [← huv]; exact h
          | cons y ys =>
            simp at huv
            exact hd ys v huv.2 (fun hm => hu (List.mem_cons_of_mem _ hm))
        · intro h
          exact h [] _ rfl (by simp)
      | some r =>
        simp only [reduceCtorEq, false_iff]
        intro h
        have : dotStar k xs = none := by
          rw [ih]
          intro u v huv hu
          refine h (x :: u) v (by simp [huv]) ?_
          simp only [List.mem_cons, not_or]
          exact ⟨fun e => hx e.symm, hu⟩
        rw [this] at hd
        cases hd

theorem dotStar_eq_some {R : Type} (k : List Char → Option R) (s : List Char) :
    ∀ g r, dotStar k s = some (g, r) →
      ∃ t, s = g ++ t ∧ '\n' ∉ g ∧ k t = some r ∧
        ∀ u v, s = u ++ v → '\n' ∉ u → g.length < u.length → k v = none := by
  induction s with
  | nil =>
    intro g r h
    simp only [dotStar, Option.map_eq_some'] at h
    obtain ⟨r', hk, he⟩ := h
    simp only [Prod.mk.injEq] at he
    obtain ⟨hg, hr⟩ := he
    subst hg; subst hr
    refine ⟨[], rfl, by simp, hk, ?_⟩
    intro u v huv _ hl
    have hu : u = [] := (List.append_eq_nil.mp huv.symm).1
    simp [hu] at hl
  | cons x xs ih =>
    intro g r h
    by_cases hx : x = '\n'
    · simp only [dotStar, hx, if_true, Option.map_eq_some'] at h
      obtain ⟨r', hk, he⟩ := h
      simp only [Prod.mk.injEq] at he
      obtain ⟨hg, hr⟩ := he
      subst hg; subst hr
      refine ⟨x :: xs, rfl, by simp, by rw [hx]; exact hk, ?_⟩
      intro u v huv hu hl
      cases u with
      | nil => simp at hl
      | cons y ys =>
        simp at huv
        exact absurd (huv.1 ▸ hx ▸ List.mem_cons_self _ _) hu
    · simp only [dotStar, hx, if_false] at h
      cases hd : dotStar k xs with
      | none =>
        rw [hd] at h
        simp only [Option.map_eq_some'] at h
        obtain ⟨r', hk, he⟩ := h
        simp only [Prod.mk.injEq] at he
        obtain ⟨hg, hr⟩ := he
        subst hg; subst hr
        refine ⟨x :: xs, rfl, by simp, hk, ?_⟩
        intro u v huv hu hl
        cases u with
        | nil => simp at hl
        | cons y ys =>
          simp at huv
          exact (dotStar_eq_none k xs).mp hd ys v huv.2
            (fun hm => hu (List.mem_cons_of_mem _ hm))
      | some gr =>
        obtain ⟨g', r'⟩ := gr
        rw [hd] at h
        simp only [Option.some.injEq, Prod.mk.injEq] at h
        obtain ⟨hg, hr⟩ := h
        subst hg; subst hr
        obtain ⟨t, hs, hnl, hk, hmax⟩ := ih g' r' hd
        refine ⟨t, by simp [hs], ?_, hk, ?_⟩
        · simp only [List.mem_cons, not_or]
          exact ⟨fun e => hx e.symm, hnl⟩
        · intro u v huv hu hl
          cases u with
          | nil => simp at hl
          | cons y ys =>
            simp at huv
            simp at hl
            exact hmax ys v huv.2 (fun hm => hu (List.mem_cons_of_mem _ hm)) hl

theorem matchHere_lit (c : Char) (p : List Tok) (s : List Char)
    (r : List (List Char) × List Char) :
    matchHere (Tok.lit c :: p) s = some r ↔ ∃ t, s = c :: t ∧ matchHere p t = some r := by
  cases s with
  | nil => simp [matchHere]
  | cons x xs =>
    by_cases hx : x = c
    · simp [matchHere, hx]
    · simp only [matchHere, hx, if_false, reduceCtorEq, false_iff]
      rintro ⟨t, ht, _⟩
      simp at ht
      exact hx ht.1

theorem matchHere_cap (p : List Tok) (s : List Char) (caps : List (List Char))
    (rest : List Char) (h : matchHere (Tok.cap :: p) s = some (caps, rest)) :
    ∃ g caps' t, caps = g :: caps' ∧ s = g ++ t ∧ '\n' ∉ g ∧
      matchHere p t = some (caps', rest) ∧
      ∀ u v, s = u ++ v → '\n' ∉ u → g.length < u.length → matchHere p v = none := by
  simp only [matchHere, Option.map_eq_some'] at h
  obtain ⟨⟨g, caps', rest'⟩, hd, he⟩ := h
  simp only [Prod.mk.injEq] at he
  obtain ⟨hc, hr⟩ := he
  subst hr
  obtain ⟨t, hs, hnl, hk, hmax⟩ := dotStar_eq_some (matchHere p) s g (caps', rest') hd
  exact ⟨g, caps', t, hc.symm, hs, hnl, hk, hmax⟩

theorem matchHere_sound : ∀ (p : List Tok) (s : List Char) (caps : List (List Char))
    (rest : List Char), matchHere p s = some (caps, rest) → Dec p s caps rest := by
  intro p
  induction p with
  | nil =>
    intro s caps rest h
    simp only [matchHere, Option.some.injEq, Prod.mk.injEq] at h
    exact ⟨h.1.symm, h.2.symm⟩
  | cons tok p ih =>
    intro s caps rest h
    cases tok with
    | lit c =>
      obtain ⟨t, hs, ht⟩ := (matchHere_lit c p s (caps, rest)).mp h
      exact ⟨t, hs, ih t caps rest ht⟩
    | cap =>
      obtain ⟨g, caps', t, hc, hs, hnl, hk, _⟩ := matchHere_cap p s caps rest h
      exact ⟨g, t, caps', hs, hnl, hc, ih t caps' rest hk⟩

theorem matchHere_complete : ∀ (p : List Tok) (s : List Char) (caps : List (List Char))
    (rest : List Char), Dec p s caps rest → matchHere p s ≠ none := by
  intro p
  induction p with
  | nil =>
    intro s caps rest _
    simp [matchHere]
  | cons tok p ih =>
    intro s caps rest h
    cases tok with
    | lit c =>
      obtain ⟨t, hs, ht⟩ := h
      subst hs
      simp only [matchHere, if_true]
      exact ih t caps rest ht
    | cap =>
      obtain ⟨g, t, caps', hs, hnl, _, ht⟩ := h
      simp only [matchHere, ne_eq, Option.map_eq_none']
      intro hn
      exact ih t caps' rest ht ((dotStar_eq_none (matchHere p) s).mp hn g t hs hnl)

theorem mem_split {c : Char} {l : List Char} (h : c ∈ l) : ∃ x y, l = x ++ c :: y :=
  List.append_of_mem h

/-- What a match of `scmRegexp` at the start of the input looks like: the four
groups and the three delimiters in order, each group confined to one line, and
greedy: a delimiter never occurs in the group that follows it. -/
theorem scm_match (s : List Char) (caps : List (List Char)) (rest : List Char)
    (h : matchHere scmRegexp s = some (caps, rest)) :
    ∃ g1 g2 g3 g4, caps = [g1, g2, g3, g4] ∧
      s = g1 ++ ':' :: (g2 ++ '/' :: (g3 ++ '#' :: (g4 ++ rest))) ∧
      '\n' ∉ g1 ∧ '\n' ∉ g2 ∧ '\n' ∉ g3 ∧ '\n' ∉ g4 ∧
      (rest = [] ∨ ∃ t, rest = '\n' :: t) ∧
      ':' ∉ g2 ∧ '/' ∉ g3 ∧ '#' ∉ g4 := by
  unfold scmRegexp at h
  obtain ⟨g1, caps1, t1, hc1, hs1, hn1, hk1, hmax1⟩ := matchHere_cap _ s caps rest h
  obtain ⟨t1', ht1, hk1'⟩ := (matchHere_lit _ _ t1 _).mp hk1
  obtain ⟨g2, caps2, t2, hc2, hs2, hn2, hk2, hmax2⟩ := matchHere_cap _ t1' caps1 rest hk1'
  obtain ⟨t2', ht2, hk2'⟩ := (matchHere_lit _ _ t2 _).mp hk2
  obtain ⟨g3, caps3, t3, hc3, hs3, hn3, hk3, hmax3⟩ := matchHere_cap _ t2' caps2 rest hk2'
  obtain ⟨t3', ht3, hk3'⟩ := (matchHere_lit _ _ t3 _).mp hk3
  obtain ⟨g4, caps4, t4, hc4, hs4, hn4, hk4, hmax4⟩ := matchHere_cap _ t3' caps3 rest hk3'
  simp only [matchHere, Option.some.injEq, Prod.mk.injEq] at hk4
  obtain ⟨hc5, hr⟩ := hk4
  subst hr
  subst hc5
  subst hc4; subst hc3; subst hc2; subst hc1
  subst hs4; subst ht3; subst hs3; subst ht2; subst hs2; subst ht1; subst hs1
  have hrest : t4 = [] ∨ ∃ t, t4 = '\n' :: t := by
    cases t4 with
    | nil => exact Or.inl rfl
    | cons y ys =>
      right
      by_cases hy : y = '\n'
      · exact ⟨ys, by rw [hy]⟩
      · exfalso
        have := hmax4 (g4 ++ [y]) ys (by simp) (by
          simp only [List.mem_append, List.mem_singleton, not_or]
          exact ⟨hn4, fun e => hy e.symm⟩) (by simp)
        simp [matchHere] at this
  refine ⟨g1, g2, g3, g4, rfl, rfl, hn1, hn2, hn3, hn4, hrest, ?_, ?_, ?_⟩
  · intro hm
    obtain ⟨x, y, hxy⟩ := mem_split hm
    subst hxy
    have hnx : '\n' ∉ x := fun hx => hn2 (by simp [hx])
    have hny : '\n' ∉ y := fun hy => hn2 (by simp [hy])
    have hnone := hmax1 (g1 ++ ':' :: x) (':' :: (y ++ '/' :: (g3 ++ '#' :: (g4 ++ t4))))
      (by simp) (by simp [hn1, hnx]) (by simp)
    refine matchHere_complete _ _ [y, g3, g4] t4 ?_ hnone
    exact ⟨_, rfl, y, _, _, rfl, hny, rfl, _, rfl, g3, _, _, rfl, hn3, rfl, _, rfl,
      g4, _, _, rfl, hn4, rfl, rfl, rfl⟩
  · intro hm
    obtain ⟨x, y, hxy⟩ := mem_split hm
    subst hxy
    have hnx : '\n' ∉ x := fun hx => hn3 (by simp [hx])
    have hny : '\n' ∉ y := fun hy => hn3 (by simp [hy])
    have hnone := hmax2 (g2 ++ '/' :: x) ('/' :: (y ++ '#' :: (g4 ++ t4)))
      (by simp) (by simp [hn2, hnx]) (by simp)
    refine matchHere_complete _ _ [y, g4] t4 ?_ hnone
    exact ⟨_, rfl, y, _, _, rfl, hny, rfl, _, rfl, g4, _, _, rfl, hn4, rfl, rfl, rfl⟩
  · intro hm
    obtain ⟨x, y, hxy⟩ := mem_split hm
    subst hxy
    have hnx : '\n' ∉ x := fun hx => hn4 (by simp [hx])
    have hny : '\n' ∉ y := fun hy => hn4 (by simp [hy])
    have hnone := hmax3 (g3 ++ '#' :: x) ('#' :: (y ++ t4))
      (by simp) (by simp [hn3, hnx]) (by simp)
    refine matchHere_complete _ _ [y] t4 ?_ hnone
    exact ⟨_, rfl, y, _, _, rfl, hny, rfl, rfl, rfl⟩

/-- A match of `scmRegexp` consumes at least the three delimiters, so it is
never empty and the next search of `allMatches` starts strictly later. -/
theorem scm_match_nonempty (s : List Char) (caps : List (List Char)) (rest : List Char)
    (h : matchHere scmRegexp s = some (caps, rest)) : rest.length + 3 ≤ s.length := by
  obtain ⟨g1, g2, g3, g4, _, hs, _⟩ := scm_match s caps rest h
  rw [hs]
  simp only [List.length_append, List.length_cons]
  omega

/-- A line that contains the three delimiters in order is matched at its
start. -/
theorem scm_match_exists (a b c d : List Char)
    (ha : '\n' ∉ a) (hb : '\n' ∉ b) (hc : '\n' ∉ c) (hd : '\n' ∉ d) (rest : List Char) :
    matchHere scmRegexp (a ++ ':' :: (b ++ '/' :: (c ++ '#' :: (d ++ rest)))) ≠ none := by
  refine matchHere_complete _ _ [a, b, c, d] rest ?_
  exact ⟨a, _, _, rfl, ha, rfl, _, rfl, b, _, _, rfl, hb, rfl, _, rfl,
    c, _, _, rfl, hc, rfl, _, rfl, d, _, _, rfl, hd, rfl, rfl, rfl⟩

/-- Splitting at the last occurrence of a delimiter is unambiguous. -/
theorem split_last_unique (c : Char) (a b x y : List Char)
    (hx : c ∉ x) (hy : c ∉ y) (h : a ++ c :: x = b ++ c :: y) : a = b ∧ x = y := by
  rcases List.append_eq_append_iff.mp h with ⟨a', hb, hxx⟩ | ⟨b', ha, hyy⟩
  · cases a' with
    | nil => simp at hb hxx; exact ⟨hb.symm, hxx⟩
    | cons z zs =>
      simp at hxx
      exfalso; apply hx; rw [hxx.2]; simp
  · cases b' with
    | nil => simp at ha hyy; exact ⟨ha, hyy.symm⟩
    | cons z zs =>
      simp at hyy
      exfalso; apply hy; rw [hyy.2]; simp

theorem findFrom_hit (p : List Tok) (s : List Char) (r : List (List Char) × List Char)
    (h : matchHere p s = some r) : findFrom p s = some (s, r) := by
  cases s with
  | nil => simp [findFrom, h]
  | cons x xs => simp [findFrom, h]

theorem findFrom_sound (p : List Tok) (s : List Char) :
    ∀ start r, findFrom p s = some (start, r) →
      ∃ pre, s = pre ++ start ∧ matchHere p start = some r := by
  induction s with
  | nil =>
    intro start r h
    simp only [findFrom, Option.map_eq_some', Prod.mk.injEq] at h
    obtain ⟨r', hm, hs, hr⟩ := h
    subst hs; subst hr
    exact ⟨[], rfl, hm⟩
  | cons x xs ih =>
    intro start r h
    simp only [findFrom] at h
    cases hm : matchHere p (x :: xs) with
    | some r' =>
      rw [hm] at h
      simp only [Option.some.injEq, Prod.mk.injEq] at h
      obtain ⟨hs, hr⟩ := h
      subst hs; subst hr
      exact ⟨[], rfl, hm⟩
    | none =>
      rw [hm] at h
      obtain ⟨pre, hpre, hst⟩ := ih start r h
      exact ⟨x :: pre, by simp [hpre], hst⟩

theorem findFrom_scm_nil : findFrom scmRegexp [] = none := by decide

theorem allMatches_scm_nil (n : Nat) : allMatches scmRegexp n [] = [] := by
  cases n with
  | zero => rfl
  | succ n => simp [allMatches, findFrom_scm_nil]

/-- A line of the shape `a:b/c#d` yields exactly one match, which covers it
entirely. -/
theorem FindAll_line (a b c d : List Char)
    (ha : '\n' ∉ a) (hb : '\n' ∉ b) (hc : '\n' ∉ c) (hd : '\n' ∉ d) :
    ∃ g1 g2 g3 g4 : List Char,
      a ++ ':' :: (b ++ '/' :: (c ++ '#' :: d)) = g1 ++ ':' :: (g2 ++ '/' :: (g3 ++ '#' :: g4)) ∧
      ':' ∉ g2 ∧ '/' ∉ g3 ∧ '#' ∉ g4 ∧
      FindAllStringSubmatch scmRegexp (String.mk (a ++ ':' :: (b ++ '/' :: (c ++ '#' :: d)))) =
        [[String.mk (a ++ ':' :: (b ++ '/' :: (c ++ '#' :: d))),
          String.mk g1, String.mk g2, String.mk g3, String.mk g4]] := by
  have hex := scm_match_exists a b c d ha hb hc hd []
  simp only [List.append_nil] at hex
  cases hm : matchHere scmRegexp (a ++ ':' :: (b ++ '/' :: (c ++ '#' :: d))) with
  | none => exact absurd hm hex
  | some r =>
    obtain ⟨caps, rest⟩ := r
    obtain ⟨g1, g2, g3, g4, hcaps, hs, _, _, _, _, hrest, h2, h3, h4⟩ := scm_match _ caps rest hm
    have hrest' : rest = [] := by
      rcases hrest with h | ⟨t, ht⟩
      · exact h
      · exfalso
        have hmem : '\n' ∈ a ++ ':' :: (b ++ '/' :: (c ++ '#' :: d)) := by
          rw [hs, ht]; simp
        simp only [List.mem_append, List.mem_cons] at hmem
        rcases hmem with h | h | h | h | h | h | h
        · exact ha h
        · exact absurd h (by decide)
        · exact hb h
        · exact absurd h (by decide)
        · exact hc h
        · exact absurd h (by decide)
        · exact hd h
    subst hrest'
    subst hcaps
    simp only [List.append_nil] at hs
    refine ⟨g1, g2, g3, g4, hs, h2, h3, h4, ?_⟩
    simp only [FindAllStringSubmatch, allMatches, findFrom_hit _ _ _ hm, allMatches_scm_nil,
      submatch, List.length_nil, Nat.sub_zero, List.take_length, List.map_cons, List.map_nil]

theorem parseScmURL_of_match (url w h o r b : String)
    (hm : FindAllStringSubmatch scmRegexp url = [[w, h, o, r, b]]) :
    parseScmURL url = (⟨h, o, r, b⟩, none) := by
  simp [parseScmURL, hm, at2]

theorem parseScmURL_of_nil (url : String)
    (hm : FindAllStringSubmatch scmRegexp url = []) :
    parseScmURL url = (scmPath.zero,
      some ⟨"Unable to parse SCM URL %v, match: %q", [Operand.str url, Operand.matches []]⟩) := by
  simp [parseScmURL, hm]

/-- Every successful parse comes from a single match of the expression
somewhere in the locator. -/
theorem parseScmURL_success (url : String) (h : (parseScmURL url).2 = none) :
    ∃ pre g1 g2 g3 g4 rest : List Char,
      url.data = pre ++ (g1 ++ ':' :: (g2 ++ '/' :: (g3 ++ '#' :: (g4 ++ rest)))) ∧
      (parseScmURL url).1 = ⟨String.mk g1, String.mk g2, String.mk g3, String.mk g4⟩ ∧
      '\n' ∉ g1 ∧ '\n' ∉ g2 ∧ '\n' ∉ g3 ∧ '\n' ∉ g4 ∧
      (rest = [] ∨ ∃ t, rest = '\n' :: t) ∧
      ':' ∉ g2 ∧ '/' ∉ g3 ∧ '#' ∉ g4 := by
  cases hf : findFrom scmRegexp url.data with
  | none =>
    have : FindAllStringSubmatch scmRegexp url = [] := by
      simp [FindAllStringSubmatch, allMatches, hf]
    rw [parseScmURL_of_nil url this] at h
    cases h
  | some sr =>
    obtain ⟨start, caps, rest⟩ := sr
    obtain ⟨pre, hpre, hm⟩ := findFrom_sound _ _ _ _ hf
    obtain ⟨g1, g2, g3, g4, hcaps, hs, hn1, hn2, hn3, hn4, hrest, h2, h3, h4⟩ :=
      scm_match _ caps rest hm
    subst hcaps
    refine ⟨pre, g1, g2, g3, g4, rest, by rw [hpre, hs], ?_, hn1, hn2, hn3, hn4, hrest, h2, h3, h4⟩
    have hall : FindAllStringSubmatch scmRegexp url =
        submatch start ([g1, g2, g3, g4], rest) :: allMatches scmRegexp url.data.length rest := by
      simp [FindAllStringSubmatch, allMatches, hf]
    cases hrem : allMatches scmRegexp url.data.length rest with
    | nil =>
      rw [hrem] at hall
      simp only [submatch, List.map_cons, List.map_nil] at hall
      rw [parseScmURL_of_match url _ _ _ _ _ hall]
    | cons m ms =>
      rw [hrem] at hall
      simp [parseScmURL, hall] at h

theorem four_unique (a b c d g1 g2 g3 g4 : List Char)
    (h : a ++ ':' :: (b ++ '/' :: (c ++ '#' :: d)) = g1 ++ ':' :: (g2 ++ '/' :: (g3 ++ '#' :: g4)))
    (hb : ':' ∉ b) (hc : '/' ∉ c) (hd : '#' ∉ d)
    (h2 : ':' ∉ g2) (h3 : '/' ∉ g3) (h4 : '#' ∉ g4) :
    a = g1 ∧ b = g2 ∧ c = g3 ∧ d = g4 := by
  have h' : (a ++ ':' :: (b ++ '/' :: c)) ++ '#' :: d
      = (g1 ++ ':' :: (g2 ++ '/' :: g3)) ++ '#' :: g4 := by simpa using h
  obtain ⟨e1, e2⟩ := split_last_unique '#' _ _ _ _ hd h4 h'
  have e1' : (a ++ ':' :: b) ++ '/' :: c = (g1 ++ ':' :: g2) ++ '/' :: g3 := by simpa using e1
  obtain ⟨e3, e4⟩ := split_last_unique '/' _ _ _ _ hc h3 e1'
  obtain ⟨e5, e6⟩ := split_last_unique ':' _ _ _ _ hb h2 e3
  exact ⟨e5, e6, e4, e2⟩

theorem locator_data (host org repo branch : String) :
    host ++ ":" ++ org ++ "/" ++ repo ++ "#" ++ branch
      = String.mk (host.data ++ ':' :: (org.data ++ '/' :: (repo.data ++ '#' :: branch.data))) := by
  apply String.ext
  simp [String.data_append]

/-- The parse of a newline-free locator: it succeeds, the fields concatenate
back to the locator, and a delimiter never occurs in the field after it. -/
theorem parse_line (host org repo branch : String)
    (hh : '\n' ∉ host.data) (ho : '\n' ∉ org.data)
    (hr : '\n' ∉ repo.data) (hb : '\n' ∉ branch.data) :
    ∃ g1 g2 g3 g4 : List Char,
      host.data ++ ':' :: (org.data ++ '/' :: (repo.data ++ '#' :: branch.data))
        = g1 ++ ':' :: (g2 ++ '/' :: (g3 ++ '#' :: g4)) ∧
      ':' ∉ g2 ∧ '/' ∉ g3 ∧ '#' ∉ g4 ∧
      parseScmURL (host ++ ":" ++ org ++ "/" ++ repo ++ "#" ++ branch)
        = (⟨String.mk g1, String.mk g2, String.mk g3, String.mk g4⟩, none) := by
  obtain ⟨g1, g2, g3, g4, hs, h2, h3, h4, hf⟩ :=
    FindAll_line host.data org.data repo.data branch.data hh ho hr hb
  refine ⟨g1, g2, g3, g4, hs, h2, h3, h4, ?_⟩
  rw [locator_data]
  exact parseScmURL_of_match _ _ _ _ _ _ hf

/-- Claim C1 as the code has it: for all newline-free strings host, org, repo
and branch, `parseScmURL` succeeds on `host:org/repo#branch` and rendering the
returned coordinates with `String` gives back exactly that locator. -/
theorem parse_render_roundtrip (host org repo branch : String)
    (hh : '\n' ∉ host.data) (ho : '\n' ∉ org.data)
    (hr : '\n' ∉ repo.data) (hb : '\n' ∉ branch.data) :
    (parseScmURL (host ++ ":" ++ org ++ "/" ++ repo ++ "#" ++ branch)).2 = none ∧
    (parseScmURL (host ++ ":" ++ org ++ "/" ++ repo ++ "#" ++ branch)).1.String
      = host ++ ":" ++ org ++ "/" ++ repo ++ "#" ++ branch := by
  obtain ⟨g1, g2, g3, g4, hs, _, _, _, hp⟩ := parse_line host org repo branch hh ho hr hb
  rw [hp]
  refine ⟨rfl, ?_⟩
  apply String.ext
  simp [scmPath.String, String.data_append, hs]

theorem parse_render_roundtrip_witness :
    ('\n' ∉ "git@github.com".data ∧ '\n' ∉ "screwdriver-cd".data ∧
      '\n' ∉ "launch.git".data ∧ '\n' ∉ "master".data) ∧
    (parseScmURL ("git@github.com" ++ ":" ++ "screwdriver-cd" ++ "/" ++ "launch.git"
        ++ "#" ++ "master")).2 = none ∧
    (parseScmURL ("git@github.com" ++ ":" ++ "screwdriver-cd" ++ "/" ++ "launch.git"
        ++ "#" ++ "master")).1.String
      = "git@github.com" ++ ":" ++ "screwdriver-cd" ++ "/" ++ "launch.git" ++ "#" ++ "master" :=
  ⟨by decide,
    parse_render_roundtrip "git@github.com" "screwdriver-cd" "launch.git" "master"
      (by decide) (by decide) (by decide) (by decide)⟩

/-- Claim C1 as stated fails: with a newline in the host, host = "a\nb",
org = "o", repo = "r", branch = "m", the expression matches only the last line,
the parse succeeds with Host "b", and the rendering "b:o/r#m" is not the
original locator. -/
theorem parse_render_roundtrip_fails_with_newline :
    parseScmURL ("a\nb" ++ ":" ++ "o" ++ "/" ++ "r" ++ "#" ++ "m")
      = (⟨"b", "o", "r", "m"⟩, none) ∧
    (parseScmURL ("a\nb" ++ ":" ++ "o" ++ "/" ++ "r" ++ "#" ++ "m")).1.String = "b:o/r#m" ∧
    (parseScmURL ("a\nb" ++ ":" ++ "o" ++ "/" ++ "r" ++ "#" ++ "m")).1.String
      ≠ "a\nb" ++ ":" ++ "o" ++ "/" ++ "r" ++ "#" ++ "m" := by
  decide

/-- Claim C2: for all newline-free strings host, org, repo and branch,
`parseScmURL` succeeds on `host:org/repo#branch`, and the returned coordinates
are exactly (host, org, repo, branch) if and only if org contains no `:`, repo
contains no `/` and branch contains no `#`. -/
theorem parse_recovers_fields_iff (host org repo branch : String)
    (hh : '\n' ∉ host.data) (ho : '\n' ∉ org.data)
    (hr : '\n' ∉ repo.data) (hb : '\n' ∉ branch.data) :
    (parseScmURL (host ++ ":" ++ org ++ "/" ++ repo ++ "#" ++ branch)).2 = none ∧
    ((parseScmURL (host ++ ":" ++ org ++ "/" ++ repo ++ "#" ++ branch)).1
        = ⟨host, org, repo, branch⟩
      ↔ ':' ∉ org.data ∧ '/' ∉ repo.data ∧ '#' ∉ branch.data) := by
  obtain ⟨g1, g2, g3, g4, hs, h2, h3, h4, hp⟩ := parse_line host org repo branch hh ho hr hb
  rw [hp]
  refine ⟨rfl, ?_⟩
  constructor
  · intro h
    simp only [scmPath.mk.injEq] at h
    obtain ⟨_, e2, e3, e4⟩ := h
    rw [← e2, ← e3, ← e4]
    exact ⟨h2, h3, h4⟩
  · rintro ⟨c2, c3, c4⟩
    obtain ⟨e1, e2, e3, e4⟩ := four_unique _ _ _ _ _ _ _ _ hs c2 c3 c4 h2 h3 h4
    rw [← e1, ← e2, ← e3, ← e4]

theorem parse_recovers_fields_iff_witness :
    ('\n' ∉ "git@github.com".data ∧ '\n' ∉ "screwdriver-cd".data ∧
      '\n' ∉ "launch.git".data ∧ '\n' ∉ "master".data) ∧
    (':' ∉ "screwdriver-cd".data ∧ '/' ∉ "launch.git".data ∧ '#' ∉ "master".data) ∧
    (parseScmURL "git@github.com:screwdriver-cd/launch.git#master").2 = none ∧
    (parseScmURL "git@github.com:screwdriver-cd/launch.git#master").1
      = ⟨"git@github.com", "screwdriver-cd", "launch.git", "master"⟩ :=
  ⟨by decide, by decide,
    (parse_recovers_fields_iff "git@github.com" "screwdriver-cd" "launch.git" "master"
      (by decide) (by decide) (by decide) (by decide)).1,
    (parse_recovers_fields_iff "git@github.com" "screwdriver-cd" "launch.git" "master"
      (by decide) (by decide) (by decide) (by decide)).2.mpr (by decide)⟩

theorem parseScmURL_failure (url : String) (h : (parseScmURL url).2 ≠ none) :
    (parseScmURL url).1 = scmPath.zero := by
  unfold parseScmURL at h ⊢
  simp only at h ⊢
  split
  · rfl
  · rename_i hc
    rw [if_neg hc] at h
    exact absurd rfl h

theorem inOrder_mem (url a b c d : String)
    (h : url = a ++ ":" ++ b ++ "/" ++ c ++ "#" ++ d) :
    ':' ∈ url.data ∧ '/' ∈ url.data ∧ '#' ∈ url.data := by
  subst h
  simp [String.data_append]

/-- Claim C3: a url that does not contain a `:` followed later by a `/`
followed later by a `#` (in particular a url in which one of the three
delimiters is missing) is rejected: `parseScmURL` returns a non-nil error and
the zero-valued `scmPath`, whose four fields are empty. -/
theorem malformed_rejected (url : String)
    (h : (¬ ∃ a b c d : String, url = a ++ ":" ++ b ++ "/" ++ c ++ "#" ++ d) ∨
      ':' ∉ url.data ∨ '/' ∉ url.data ∨ '#' ∉ url.data) :
    (parseScmURL url).2 ≠ none ∧ (parseScmURL url).1 = ⟨"", "", "", ""⟩ := by
  have hno : ¬ ∃ a b c d : String, url = a ++ ":" ++ b ++ "/" ++ c ++ "#" ++ d := by
    rcases h with h | h | h | h
    · exact h
    · rintro ⟨a, b, c, d, e⟩; exact h (inOrder_mem url a b c d e).1
    · rintro ⟨a, b, c, d, e⟩; exact h (inOrder_mem url a b c d e).2.1
    · rintro ⟨a, b, c, d, e⟩; exact h (inOrder_mem url a b c d e).2.2
  have hne : (parseScmURL url).2 ≠ none := by
    intro hs
    obtain ⟨pre, g1, g2, g3, g4, rest, hd, _⟩ := parseScmURL_success url hs
    apply hno
    refine ⟨String.mk (pre ++ g1), String.mk g2, String.mk g3, String.mk (g4 ++ rest), ?_⟩
    apply String.ext
    simp [String.data_append, hd]
  exact ⟨hne, parseScmURL_failure url hne⟩

theorem malformed_rejected_witness :
    ((¬ ∃ a b c d : String, "git@github.com:org/repo" = a ++ ":" ++ b ++ "/" ++ c ++ "#" ++ d) ∨
      ':' ∉ "git@github.com:org/repo".data ∨ '/' ∉ "git@github.com:org/repo".data ∨
      '#' ∉ "git@github.com:org/repo".data) ∧
    (parseScmURL "git@github.com:org/repo").2 ≠ none ∧
    (parseScmURL "git@github.com:org/repo").1 = ⟨"", "", "", ""⟩ :=
  ⟨Or.inr (Or.inr (Or.inr (by decide))),
    malformed_rejected "git@github.com:org/repo" (Or.inr (Or.inr (Or.inr (by decide))))⟩

/-- Claim C4 as stated fails: the url ":/#" is parsed successfully and all four
fields of the result are empty. -/
theorem parse_success_empty_fields :
    (parseScmURL ":/#").2 = none ∧
    (parseScmURL ":/#").1.Host = "" ∧ (parseScmURL ":/#").1.Org = "" ∧
    (parseScmURL ":/#").1.Repo = "" ∧ (parseScmURL ":/#").1.Branch = "" := by
  decide

/-- Claim C4 as the code has it: whenever `parseScmURL` succeeds, the four
fields (any of which may be empty) contain no newline, Org contains no `:`,
Repo no `/` and Branch no `#`, and the url contains the rendered coordinates
`Host:Org/Repo#Branch` as a contiguous piece. -/
theorem parse_success_invariant (url : String) (h : (parseScmURL url).2 = none) :
    ('\n' ∉ (parseScmURL url).1.Host.data ∧ '\n' ∉ (parseScmURL url).1.Org.data ∧
      '\n' ∉ (parseScmURL url).1.Repo.data ∧ '\n' ∉ (parseScmURL url).1.Branch.data) ∧
    (':' ∉ (parseScmURL url).1.Org.data ∧ '/' ∉ (parseScmURL url).1.Repo.data ∧
      '#' ∉ (parseScmURL url).1.Branch.data) ∧
    ∃ pre post : String, url = pre ++ (parseScmURL url).1.String ++ post := by
  obtain ⟨pre, g1, g2, g3, g4, rest, hd, hp, hn1, hn2, hn3, hn4, _, h2, h3, h4⟩ :=
    parseScmURL_success url h
  rw [hp]
  refine ⟨⟨hn1, hn2, hn3, hn4⟩, ⟨h2, h3, h4⟩, String.mk pre, String.mk rest, ?_⟩
  apply String.ext
  simp [scmPath.String, String.data_append, hd]

theorem parse_success_invariant_witness :
    (parseScmURL "git@github.com:screwdriver-cd/launch.git#master").2 = none ∧
    (('\n' ∉ (parseScmURL "git@github.com:screwdriver-cd/launch.git#master").1.Host.data ∧
      '\n' ∉ (parseScmURL "git@github.com:screwdriver-cd/launch.git#master").1.Org.data ∧
      '\n' ∉ (parseScmURL "git@github.com:screwdriver-cd/launch.git#master").1.Repo.data ∧
      '\n' ∉ (parseScmURL "git@github.com:screwdriver-cd/launch.git#master").1.Branch.data) ∧
    (':' ∉ (parseScmURL "git@github.com:screwdriver-cd/launch.git#master").1.Org.data ∧
      '/' ∉ (parseScmURL "git@github.com:screwdriver-cd/launch.git#master").1.Repo.data ∧
      '#' ∉ (parseScmURL "git@github.com:screwdriver-cd/launch.git#master").1.Branch.data) ∧
    ∃ pre post : String, "git@github.com:screwdriver-cd/launch.git#master"
      = pre ++ (parseScmURL "git@github.com:screwdriver-cd/launch.git#master").1.String ++ post) :=
  ⟨by decide,
    parse_success_invariant "git@github.com:screwdriver-cd/launch.git#master" (by decide)⟩


/-! ## Facts about `Clean` and `Join` -/

theorem elems_cons_slash (p : List Char) : elems ('/' :: p) = [] :: elems p := by
  simp [elems]

theorem elems_cons_of_ne (c : Char) (p : List Char) (hc : c ≠ '/') :
    elems (c :: p) = (c :: (elems p).headD []) :: (elems p).tail := by
  rw [elems, if_neg hc]
  cases elems p <;> simp

theorem elems_eq_takeWhile (p : List Char) :
    elems p = p.takeWhile (fun x => x ≠ '/') ::
      (match p.dropWhile (fun x => x ≠ '/') with
        | [] => []
        | _ :: q => elems q) := by
  induction p with
  | nil => simp [elems]
  | cons c p ih =>
    by_cases hc : c = '/'
    · subst hc
      simp [elems]
    · rw [elems, if_neg hc, ih]
      simp [List.takeWhile, List.dropWhile, hc]

theorem elems_no_slash (p : List Char) : ∀ e ∈ elems p, '/' ∉ e := by
  induction p with
  | nil => simp [elems]
  | cons c p ih =>
    by_cases hc : c = '/'
    · subst hc
      intro e he
      rw [elems_cons_slash] at he
      rcases List.mem_cons.mp he with h | h
      · simp [h]
      · exact ih e h
    · rw [elems, if_neg hc]
      cases hp : elems p with
      | nil =>
        intro e he
        simp at he
        simp [he]
        exact fun h => hc h.symm
      | cons e0 es =>
        intro e he
        simp only [List.mem_cons] at he
        rcases he with h | h
        · subst h
          have := ih e0 (by simp [hp])
          simp only [List.mem_cons, not_or]
          exact ⟨fun h => hc h.symm, this⟩
        · exact ih e (by simp [hp, h])

theorem elems_of_no_slash (a : List Char) (h : '/' ∉ a) : elems a = [a] := by
  induction a with
  | nil => rfl
  | cons c a ih =>
    simp only [List.mem_cons, not_or] at h
    have hc : c ≠ '/' := fun e => h.1 e.symm
    rw [elems, if_neg hc, ih h.2]

theorem elems_append_slash (a b : List Char) :
    elems (a ++ '/' :: b) = elems a ++ elems b := by
  induction a with
  | nil => simp [elems]
  | cons c a ih =>
    by_cases hc : c = '/'
    · subst hc
      simp [elems, ih]
    · rw [List.cons_append, elems_cons_of_ne _ _ hc, elems_cons_of_ne _ _ hc, ih]
      cases ha : elems a with
      | nil =>
        have := elems_eq_takeWhile a
        rw [ha] at this
        cases this
      | cons e es => simp

theorem elems_append_slashed (a : List Char) (es : List (List Char))
    (h : ∀ e ∈ es, '/' ∉ e) : elems (a ++ slashed es) = elems a ++ es := by
  induction es generalizing a with
  | nil => simp [slashed]
  | cons e es ih =>
    have he : '/' ∉ e := h e (List.mem_cons_self _ _)
    have hes : ∀ x ∈ es, '/' ∉ x := fun x hx => h x (List.mem_cons_of_mem _ hx)
    have : a ++ slashed (e :: es) = (a ++ '/' :: e) ++ slashed es := by
      simp [slashed]
    rw [this, ih _ hes, elems_append_slash, elems_of_no_slash e he]
    simp

theorem cleanLoop_nil (rooted : Bool) (fuel : Nat) (out : List Char) (dd : Nat) :
    cleanLoop rooted fuel [] out dd = out := by
  cases fuel <;> rfl

theorem dropWhile_head_slash (p : List Char) (x : Char) (q : List Char)
    (h : p.dropWhile (fun x => x ≠ '/') = x :: q) : x = '/' := by
  induction p with
  | nil => simp at h
  | cons c p ih =>
    by_cases hc : c = '/'
    · simp [List.dropWhile, hc] at h
      exact h.1.symm
    · simp only [List.dropWhile, ne_eq, hc, not_false_eq_true, decide_True] at h
      exact ih h

/-- On a path without `..` elements the loop of `Clean` appends, in order, the
elements that are neither empty nor `.`. -/
theorem cleanLoop_noDotDot (rooted : Bool) :
    ∀ (fuel : Nat) (p out : List Char) (dd : Nat), p.length ≤ fuel →
      ['.', '.'] ∉ elems p →
      cleanLoop rooted fuel p out dd = ((elems p).filter keep).foldl (pushComp rooted) out := by
  intro fuel
  induction fuel with
  | zero =>
    intro p out dd hl _
    have : p = [] := List.length_eq_zero.mp (Nat.le_zero.mp hl)
    subst this
    simp [cleanLoop, elems, keep]
  | succ fuel ih =>
    intro p out dd hl hnd
    cases p with
    | nil => simp [cleanLoop, elems, keep]
    | cons c p1 =>
      have hl1 : p1.length ≤ fuel := by simpa using hl
      rw [cleanLoop]
      by_cases hc : c = '/'
      · subst hc
        rw [if_pos rfl]
        rw [elems_cons_slash] at hnd ⊢
        rw [ih p1 out dd hl1 (fun h => hnd (List.mem_cons_of_mem _ h))]
        simp [keep]
      · rw [if_neg hc]
        by_cases h2 : c = '.' ∧ (p1 = [] ∨ p1.head? = some '/')
        · rw [if_pos h2]
          obtain ⟨hdot, hp1⟩ := h2
          subst hdot
          cases p1 with
          | nil =>
            rw [cleanLoop_nil]
            simp [elems, keep]
          | cons d p2 =>
            have hd : d = '/' := by simpa using hp1
            subst hd
            rw [elems_cons_of_ne '.' _ (by decide), elems_cons_slash] at hnd ⊢
            simp only [List.headD_cons, List.tail_cons, List.mem_cons, not_or] at hnd
            rw [ih _ out dd hl1 (by
              rw [elems_cons_slash]
              simp only [List.mem_cons, not_or]
              exact ⟨by decide, hnd.2⟩)]
            rw [elems_cons_slash]
            simp [keep]
        · rw [if_neg h2]
          by_cases h3 : c = '.' ∧ p1.head? = some '.' ∧ (p1.tail = [] ∨ p1.tail.head? = some '/')
          · exfalso
            apply hnd
            obtain ⟨hdot, hp1, hp2⟩ := h3
            subst hdot
            cases p1 with
            | nil => simp at hp1
            | cons d p2 =>
              have hd : d = '.' := by simpa using hp1
              subst hd
              rw [elems_eq_takeWhile]
              cases p2 with
              | nil => simp [List.takeWhile]
              | cons f p3 =>
                have hf : f = '/' := by simpa using hp2
                subst hf
                simp [List.takeWhile]
          · rw [if_neg h3]
            have hne : (decide (c ≠ '/')) = true := by simpa using hc
            have htake : (c :: p1).takeWhile (fun x => x ≠ '/')
                = c :: p1.takeWhile (fun x => x ≠ '/') := by
              simp [List.takeWhile, hc]
            have hdrop : (c :: p1).dropWhile (fun x => x ≠ '/')
                = p1.dropWhile (fun x => x ≠ '/') := by
              simp [List.dropWhile, hc]
            have hkeep : keep (c :: p1.takeWhile (fun x => x ≠ '/')) = true := by
              simp only [keep, ne_eq, reduceCtorEq, not_false_eq_true, decide_True, Bool.true_and,
                decide_eq_true_eq]
              intro he
              simp only [List.cons.injEq] at he
              apply h2
              refine ⟨he.1, ?_⟩
              cases p1 with
              | nil => exact Or.inl rfl
              | cons d p2 =>
                right
                by_cases hd : d = '/'
                · simp [hd]
                · simp [List.takeWhile, hd] at he
            have hlen : ((c :: p1).dropWhile (fun x => x ≠ '/')).length ≤ fuel := by
              rw [hdrop]
              exact le_trans (List.Sublist.length_le (List.dropWhile_sublist _)) hl1
            rw [elems_eq_takeWhile (c :: p1)] at hnd ⊢
            rw [htake] at hnd ⊢
            simp only [List.mem_cons, not_or] at hnd
            rw [List.filter_cons_of_pos hkeep, List.foldl_cons]
            cases hrest : (c :: p1).dropWhile (fun x => x ≠ '/') with
            | nil =>
              rw [ih [] _ dd (by simp) (by simp [elems])]
              simp [elems, keep, pushComp]
            | cons x q =>
              have hx : x = '/' := dropWhile_head_slash _ x q hrest
              subst hx
              rw [hrest] at hnd hlen
              simp only at hnd
              rw [ih _ _ dd hlen (by
                rw [elems_cons_slash]
                simp only [List.mem_cons, not_or]
                exact ⟨by decide, hnd.2⟩)]
              rw [elems_cons_slash]
              simp [keep, pushComp]

theorem elems_append_slashed_gen (a : List Char) (es : List (List Char)) :
    elems (a ++ slashed es) = elems a ++ (es.map elems).flatten := by
  induction es generalizing a with
  | nil => simp [slashed]
  | cons e es ih =>
    have : a ++ slashed (e :: es) = (a ++ '/' :: e) ++ slashed es := by
      simp [slashed]
    rw [this, ih, elems_append_slash]
    simp

theorem foldl_pushComp (rooted : Bool) (es : List (List Char)) :
    ∀ out : List Char, 2 ≤ out.length →
      es.foldl (pushComp rooted) out = out ++ slashed es := by
  induction es with
  | nil => intro out _; simp [slashed]
  | cons e es ih =>
    intro out hout
    have hpush : pushComp rooted out e = out ++ '/' :: e := by
      unfold pushComp
      rw [if_pos]
      · simp
      · cases rooted
        · right; exact ⟨rfl, by omega⟩
        · left; exact ⟨rfl, by omega⟩
    rw [List.foldl_cons, hpush, ih _ (by simp; omega)]
    simp [slashed]

theorem intercalate_go_data (acc : String) (l : List String) :
    (String.intercalate.go acc "/" l).data = acc.data ++ slashed (l.map String.data) := by
  induction l generalizing acc with
  | nil => simp [String.intercalate.go, slashed]
  | cons a l ih =>
    rw [String.intercalate.go, ih]
    simp [String.data_append, slashed]

theorem intercalate_data (a : String) (l : List String) :
    (String.intercalate "/" (a :: l)).data = a.data ++ slashed (l.map String.data) := by
  rw [String.intercalate, intercalate_go_data]

theorem keptElems_no_slash (segs : List String) : ∀ e ∈ keptElems segs, '/' ∉ e := by
  intro e he
  simp only [keptElems, List.mem_filter, List.mem_flatten, List.mem_map] at he
  obtain ⟨⟨l, ⟨s, _, hl⟩, hel⟩, _⟩ := he
  subst hl
  exact elems_no_slash _ e hel

theorem keptElems_no_dotdot (segs : List String)
    (h : ∀ s ∈ segs, ['.', '.'] ∉ elems s.data) : ['.', '.'] ∉ keptElems segs := by
  intro he
  simp only [keptElems, List.mem_filter, List.mem_flatten, List.mem_map] at he
  obtain ⟨⟨l, ⟨s, hs, hl⟩, hel⟩, _⟩ := he
  subst hl
  exact h s hs hel

/-- The first `Join` of `createWorkspace`, for segments without `..` elements. -/
theorem Join_src (segs : List String) (h : ∀ s ∈ segs, ['.', '.'] ∉ elems s.data) :
    Join ("src" :: segs) = String.mk (['s', 'r', 'c'] ++ slashed (keptElems segs)) := by
  have hdata : (String.intercalate "/" ("src" :: segs)).data
      = ['s', 'r', 'c'] ++ slashed (segs.map String.data) := intercalate_data "src" segs
  have hne : String.intercalate "/" ("src" :: segs) ≠ "" := by
    intro e
    rw [e] at hdata
    simp at hdata
  have helems : elems (['s', 'r', 'c'] ++ slashed (segs.map String.data))
      = ['s', 'r', 'c'] :: (segs.map (fun s => elems s.data)).flatten := by
    rw [elems_append_slashed_gen]
    simp [elems, List.map_map, Function.comp_def]
  have hnd : ['.', '.'] ∉ elems (['s', 'r', 'c'] ++ slashed (segs.map String.data)) := by
    rw [helems]
    simp only [List.mem_cons, not_or, List.mem_flatten, List.mem_map, not_exists, not_and]
    refine ⟨by decide, ?_⟩
    rintro l ⟨s, hs, rfl⟩
    exact h s hs
  have hJoin : Join ("src" :: segs) = Clean (String.intercalate "/" ("src" :: segs)) := by
    simp [Join, List.dropWhile]
  rw [hJoin, Clean, if_neg hne]
  simp only [hdata]
  have hroot : (decide ((['s', 'r', 'c'] ++ slashed (segs.map String.data)).head? = some '/'))
      = false := by simp
  rw [hroot]
  simp only [Bool.false_eq_true, if_false]
  rw [cleanLoop_noDotDot false _ _ _ _ (le_refl _) hnd, helems]
  have hk : keep ['s', 'r', 'c'] = true := by decide
  rw [List.filter_cons_of_pos hk, List.foldl_cons]
  have hp : pushComp false [] ['s', 'r', 'c'] = ['s', 'r', 'c'] := by decide
  rw [hp, foldl_pushComp false _ _ (by simp)]
  simp [keptElems]

theorem filter_keep_keptElems (segs : List String) :
    (keptElems segs).filter keep = keptElems segs := by
  simp only [keptElems, List.filter_filter, Bool.and_self]

/-- The source path derived by `createWorkspace`, for segments without `..`
elements: `/sd/workspace/src` followed by the kept elements of the segments. -/
theorem Join_root_src (segs : List String) (h : ∀ s ∈ segs, ['.', '.'] ∉ elems s.data) :
    Join ["/sd/workspace", Join ("src" :: segs)]
      = String.mk ("/sd/workspace/src".data ++ slashed (keptElems segs)) := by
  rw [Join_src segs h]
  generalize hK : keptElems segs = K
  have hKs : ∀ e ∈ K, '/' ∉ e := by rw [← hK]; exact keptElems_no_slash segs
  have hKd : ['.', '.'] ∉ K := by rw [← hK]; exact keptElems_no_dotdot segs h
  have hKf : K.filter keep = K := by rw [← hK]; exact filter_keep_keptElems segs
  have hdata : (String.intercalate "/"
      ["/sd/workspace", String.mk (['s', 'r', 'c'] ++ slashed K)]).data
      = '/' :: ("sd/workspace/src".data ++ slashed K) := by
    rw [intercalate_data]
    simp [slashed]
  have hne : String.intercalate "/"
      ["/sd/workspace", String.mk (['s', 'r', 'c'] ++ slashed K)] ≠ "" := by
    intro e
    rw [e] at hdata
    simp at hdata
  have helems : elems ("sd/workspace/src".data ++ slashed K)
      = ['s', 'd'] :: "workspace".data :: ['s', 'r', 'c'] :: K := by
    rw [elems_append_slashed _ _ hKs]
    have : elems "sd/workspace/src".data = [['s', 'd'], "workspace".data, ['s', 'r', 'c']] := by
      decide
    rw [this]
    rfl
  have hnd : ['.', '.'] ∉ elems ("sd/workspace/src".data ++ slashed K) := by
    rw [helems]
    simp only [List.mem_cons, not_or]
    exact ⟨by decide, by decide, by decide, hKd⟩
  have hJoin : Join ["/sd/workspace", String.mk (['s', 'r', 'c'] ++ slashed K)]
      = Clean (String.intercalate "/"
          ["/sd/workspace", String.mk (['s', 'r', 'c'] ++ slashed K)]) := by
    simp [Join, List.dropWhile]
  rw [hJoin, Clean, if_neg hne]
  simp only [hdata]
  simp only [List.head?_cons, decide_True, if_true, List.tail_cons]
  rw [cleanLoop_noDotDot true _ _ _ _ (by simp) hnd, helems]
  have hk1 : keep ['s', 'd'] = true := by decide
  have hk2 : keep "workspace".data = true := by decide
  have hk3 : keep ['s', 'r', 'c'] = true := by decide
  rw [List.filter_cons_of_pos hk1, List.filter_cons_of_pos hk2, List.filter_cons_of_pos hk3, hKf,
    List.foldl_cons]
  have hp : pushComp true ['/'] ['s', 'd'] = ['/', 's', 'd'] := by decide
  rw [hp, foldl_pushComp true _ _ (by simp)]
  have hlen : (['/', 's', 'd'] ++ slashed ("workspace".data :: ['s', 'r', 'c'] :: K)).length ≠ 0 := by
    simp
  rw [if_neg hlen]
  apply String.ext
  simp [slashed]

theorem Join_artifacts : Join ["/sd/workspace", "artifacts"] = "/sd/workspace/artifacts" := by
  decide

theorem keptElems_plain (segs : List String) (h : ∀ s ∈ segs, PlainName s) :
    keptElems segs = segs.map String.data ∧ ∀ s ∈ segs, ['.', '.'] ∉ elems s.data := by
  induction segs with
  | nil => simp [keptElems]
  | cons s segs ih =>
    obtain ⟨hne, hsl, hd, hdd⟩ := h s (List.mem_cons_self _ _)
    obtain ⟨ih1, ih2⟩ := ih (fun x hx => h x (List.mem_cons_of_mem _ hx))
    have hel : elems s.data = [s.data] := elems_of_no_slash _ hsl
    have hk : keep s.data = true := by
      simp only [keep, ne_eq, Bool.and_eq_true, decide_eq_true_eq]
      constructor
      · intro e; apply hne; apply String.ext; rw [e]
      · intro e; apply hd; apply String.ext; rw [e]
    constructor
    · simp only [keptElems] at ih1 ⊢
      simp only [List.map_cons, List.flatten_cons, hel, List.singleton_append]
      rw [List.filter_cons_of_pos hk, ih1]
    · intro x hx
      rcases List.mem_cons.mp hx with e | hx
      · subst e
        rw [hel]
        simp only [List.mem_singleton]
        intro e; apply hdd; apply String.ext; rw [← e]
      · exact ih2 x hx

/-- The source path for an organisation and a repository that are plain
directory names. -/
theorem Join_root_src_plain (org repo : String) (ho : PlainName org) (hr : PlainName repo) :
    Join ["/sd/workspace", Join ["src", org, repo]]
      = "/sd/workspace/src/" ++ org ++ "/" ++ repo := by
  have hall : ∀ s ∈ [org, repo], PlainName s := by
    intro s hs
    simp only [List.mem_cons, List.mem_singleton, List.not_mem_nil, or_false] at hs
    rcases hs with e | e <;> (subst e; assumption)
  obtain ⟨hk, hnd⟩ := keptElems_plain [org, repo] hall
  rw [Join_root_src [org, repo] hnd, hk]
  apply String.ext
  simp [slashed, String.data_append]

/-! ## Facts about the filesystem and `createWorkspace` -/

theorem mkdirChain_self (p : String) : p ∈ mkdirChain p := by
  simp [mkdirChain]

theorem mkdirChain_sub (p d : String) (h : d ∈ mkdirChain p) : d.data <+: p.data := by
  simp only [mkdirChain, List.mem_append, List.mem_filterMap, List.mem_singleton] at h
  rcases h with ⟨i, _, hi⟩ | h
  · split at hi
    · simp only [Option.some.injEq] at hi
      rw [← hi]
      exact List.take_prefix _ _
    · cases hi
  · rw [h]

theorem artifacts_not_in_chain (p : String) (J : List Char)
    (hp : p.data = "/sd/workspace/src".data ++ J) :
    "/sd/workspace/artifacts" ∉ mkdirChain p := by
  intro h
  have hpre := mkdirChain_sub p _ h
  rw [hp] at hpre
  obtain ⟨t, ht⟩ := hpre
  have h15 := congrArg (List.take 15) ht
  rw [List.take_append_of_le_length (by decide), List.take_append_of_le_length (by decide)] at h15
  revert h15
  decide

theorem provision_exists (p : String) (ps : List String) (w : World) (h : p ∈ w.dirs) :
    provision (p :: ps) w
      = (some ⟨"Cannot create workspace path %q, path already exists.", [Operand.str p]⟩,
          { w with trace := w.trace ++ [Call.stat p] }) := by
  simp [provision, stat, h]

theorem provision_fail (p : String) (ps : List String) (w : World) (e : String)
    (h : p ∉ w.dirs) (hm : w.mkdirErr p = some e) :
    provision (p :: ps) w
      = (some ⟨"Cannot create workspace path %q: %v", [Operand.str p, Operand.err e]⟩,
          { w with dirs := w.dirs ++ w.residue p,
                   trace := w.trace ++ [Call.stat p, Call.mkdirAll p 0o777] }) := by
  simp [provision, stat, mkdirAll, h, hm]

theorem provision_step (p : String) (ps : List String) (w : World)
    (h : p ∉ w.dirs) (hm : w.mkdirErr p = none) :
    provision (p :: ps) w
      = provision ps { w with dirs := w.dirs ++ mkdirChain p ++ w.aliases p,
                              trace := w.trace ++ [Call.stat p, Call.mkdirAll p 0o777] } := by
  simp [provision, stat, mkdirAll, h, hm]

theorem provision_error_format (ps : List String) :
    ∀ (w : World) (e : GoError), (provision ps w).1 = some e →
      e.format = "Cannot create workspace path %q, path already exists." ∨
      e.format = "Cannot create workspace path %q: %v" := by
  induction ps with
  | nil => intro w e h; simp [provision] at h
  | cons p ps ih =>
    intro w e h
    by_cases hp : p ∈ w.dirs
    · rw [provision_exists p ps w hp] at h
      simp only [Option.some.injEq] at h
      left; rw [← h]
    · cases hm : w.mkdirErr p with
      | some err =>
        rw [provision_fail p ps w err hp hm] at h
        simp only [Option.some.injEq] at h
        right; rw [← h]
      | none =>
        rw [provision_step p ps w hp hm] at h
        exact ih _ e h

/-- The function `createWorkspace` in terms of its loop. -/
theorem createWorkspace_eq (segs : List String) (w : World) :
    createWorkspace segs w
      = match provision [Join ["/sd/workspace", Join ("src" :: segs)],
            "/sd/workspace/artifacts"] w with
        | (some e, w') => ((Workspace.zero, some e), w')
        | (none, w') =>
          ((⟨"/sd/workspace", Join ["/sd/workspace", Join ("src" :: segs)],
              "/sd/workspace/artifacts"⟩, none), w') := by
  simp only [createWorkspace, Join_artifacts]

theorem src_plain_data (org repo : String) :
    ("/sd/workspace/src/" ++ org ++ "/" ++ repo).data
      = "/sd/workspace/src".data ++ ('/' :: (org.data ++ '/' :: repo.data)) := by
  simp [String.data_append]

/-- Claim C5 as stated fails: in a filesystem where `/sd/workspace/src/org` is
a symbolic link to `/sd/workspace`, neither `/sd/workspace/src/org/artifacts` nor
`/sd/workspace/artifacts` exists and no creation fails, yet creating the source
path makes the artifacts path exist and `createWorkspace("org", "artifacts")`
returns the error that the artifacts path already exists. -/
theorem createWorkspace_fails_through_link :
    (PlainName "org" ∧ PlainName "artifacts") ∧
    "/sd/workspace/src/org/artifacts" ∉ linkedWorld.dirs ∧
    "/sd/workspace/artifacts" ∉ linkedWorld.dirs ∧
    linkedWorld.mkdirErr "/sd/workspace/src/org/artifacts" = none ∧
    linkedWorld.mkdirErr "/sd/workspace/artifacts" = none ∧
    (createWorkspace ["org", "artifacts"] linkedWorld).1
      = (⟨"", "", ""⟩,
          some ⟨"Cannot create workspace path %q, path already exists.",
            [Operand.str "/sd/workspace/artifacts"]⟩) ∧
    (createWorkspace ["org", "artifacts"] linkedWorld).2.trace
      = [Call.stat "/sd/workspace/src/org/artifacts",
          Call.mkdirAll "/sd/workspace/src/org/artifacts" 0o777,
          Call.stat "/sd/workspace/artifacts"] := by
  decide

/-- Claim C5 as the code has it: for org and repo plain directory names and a
filesystem in which neither `/sd/workspace/src/<org>/<repo>` nor
`/sd/workspace/artifacts` exists, creating them does not fail, and creating the
source path does not bring the artifacts path into existence through a
symbolic link, `createWorkspace` returns a nil error and the workspace with
these paths, calls `mkdirAll` exactly on the two paths, source first, with mode
0777 (each after a `stat` of the same path), and both directories exist
afterwards. -/
theorem createWorkspace_success (org repo : String) (w : World)
    (ho : PlainName org) (hr : PlainName repo)
    (hsrc : "/sd/workspace/src/" ++ org ++ "/" ++ repo ∉ w.dirs)
    (hart : "/sd/workspace/artifacts" ∉ w.dirs)
    (hm1 : w.mkdirErr ("/sd/workspace/src/" ++ org ++ "/" ++ repo) = none)
    (hm2 : w.mkdirErr "/sd/workspace/artifacts" = none)
    (hna : "/sd/workspace/artifacts" ∉ w.aliases ("/sd/workspace/src/" ++ org ++ "/" ++ repo)) :
    (createWorkspace [org, repo] w).1
      = (⟨"/sd/workspace", "/sd/workspace/src/" ++ org ++ "/" ++ repo,
          "/sd/workspace/artifacts"⟩, none) ∧
    (createWorkspace [org, repo] w).2.trace
      = w.trace ++ [Call.stat ("/sd/workspace/src/" ++ org ++ "/" ++ repo),
          Call.mkdirAll ("/sd/workspace/src/" ++ org ++ "/" ++ repo) 0o777,
          Call.stat "/sd/workspace/artifacts",
          Call.mkdirAll "/sd/workspace/artifacts" 0o777] ∧
    "/sd/workspace/src/" ++ org ++ "/" ++ repo ∈ (createWorkspace [org, repo] w).2.dirs ∧
    "/sd/workspace/artifacts" ∈ (createWorkspace [org, repo] w).2.dirs := by
  have hart2 : "/sd/workspace/artifacts"
      ∉ w.dirs ++ mkdirChain ("/sd/workspace/src/" ++ org ++ "/" ++ repo)
          ++ w.aliases ("/sd/workspace/src/" ++ org ++ "/" ++ repo) := by
    simp only [List.mem_append, not_or]
    exact ⟨⟨hart, artifacts_not_in_chain _ _ (src_plain_data org repo)⟩, hna⟩
  have hstep2 := provision_step "/sd/workspace/artifacts" []
    { w with dirs := w.dirs ++ mkdirChain ("/sd/workspace/src/" ++ org ++ "/" ++ repo)
                ++ w.aliases ("/sd/workspace/src/" ++ org ++ "/" ++ repo),
             trace := w.trace ++ [Call.stat ("/sd/workspace/src/" ++ org ++ "/" ++ repo),
                Call.mkdirAll ("/sd/workspace/src/" ++ org ++ "/" ++ repo) 0o777] } hart2 hm2
  rw [createWorkspace_eq, Join_root_src_plain org repo ho hr,
    provision_step _ _ w hsrc hm1, hstep2]
  simp only [provision, List.append_assoc, List.cons_append, List.nil_append, List.mem_append,
    true_and]
  exact ⟨Or.inr (Or.inl (mkdirChain_self _)),
    Or.inr (Or.inr (Or.inr (Or.inl (mkdirChain_self _))))⟩

theorem createWorkspace_success_witness :
    (PlainName "screwdriver-cd" ∧ PlainName "screwdriver") ∧
    (createWorkspace ["screwdriver-cd", "screwdriver"] (World.plain ["/"] (fun _ => none))).1
      = (⟨"/sd/workspace", "/sd/workspace/src/screwdriver-cd/screwdriver",
          "/sd/workspace/artifacts"⟩, none) ∧
    (createWorkspace ["screwdriver-cd", "screwdriver"] (World.plain ["/"] (fun _ => none))).2.trace
      = [Call.stat "/sd/workspace/src/screwdriver-cd/screwdriver",
          Call.mkdirAll "/sd/workspace/src/screwdriver-cd/screwdriver" 0o777,
          Call.stat "/sd/workspace/artifacts",
          Call.mkdirAll "/sd/workspace/artifacts" 0o777] ∧
    "/sd/workspace/src/screwdriver-cd/screwdriver"
      ∈ (createWorkspace ["screwdriver-cd", "screwdriver"]
          (World.plain ["/"] (fun _ => none))).2.dirs ∧
    "/sd/workspace/artifacts"
      ∈ (createWorkspace ["screwdriver-cd", "screwdriver"]
          (World.plain ["/"] (fun _ => none))).2.dirs :=
  ⟨by decide,
    createWorkspace_success "screwdriver-cd" "screwdriver" (World.plain ["/"] (fun _ => none))
      (by decide) (by decide) (by decide) (by decide) rfl rfl (by decide)⟩

/-- Claim C6 as stated fails: with the segments "..", ".." the lexical cleaning
of `path.Join` takes the source path out of the root.  On a filesystem holding
only `/` the call succeeds and returns Src = "/sd", which does not start with
"/sd/workspace/". -/
theorem createWorkspace_escapes_root :
    (createWorkspace ["..", ".."] (World.plain ["/"] (fun _ => none))).1
      = (⟨"/sd/workspace", "/sd", "/sd/workspace/artifacts"⟩, none) ∧
    ¬ ("/sd/workspace/".data
        <+: (createWorkspace ["..", ".."] (World.plain ["/"] (fun _ => none))).1.1.Src.data) := by
  decide

/-- Claim C6 as the code has it: for every sequence of path segments none of
which has a `..` element, and every filesystem state, whenever `createWorkspace`
returns successfully the Root is "/sd/workspace" and the returned Src and
Artifacts both start with "/sd/workspace/". -/
theorem workspace_containment (segs : List String) (w : World)
    (hseg : ∀ s ∈ segs, ['.', '.'] ∉ elems s.data)
    (hok : (createWorkspace segs w).1.2 = none) :
    (createWorkspace segs w).1.1.Root = "/sd/workspace" ∧
    "/sd/workspace/".data <+: (createWorkspace segs w).1.1.Src.data ∧
    "/sd/workspace/".data <+: (createWorkspace segs w).1.1.Artifacts.data := by
  rw [createWorkspace_eq] at hok ⊢
  cases hprov : provision [Join ["/sd/workspace", Join ("src" :: segs)],
      "/sd/workspace/artifacts"] w with
  | mk err w' =>
    rw [hprov] at hok
    cases err with
    | some e => simp at hok
    | none =>
      simp only
      rw [Join_root_src segs hseg]
      refine ⟨trivial, ⟨"src".data ++ slashed (keptElems segs), ?_⟩, ⟨"artifacts".data, ?_⟩⟩
      · rw [← List.append_assoc]; rfl
      · rfl

theorem workspace_containment_witness :
    (∀ s ∈ ["screwdriver-cd", "screwdriver"], ['.', '.'] ∉ elems s.data) ∧
    (createWorkspace ["screwdriver-cd", "screwdriver"] (World.plain ["/"] (fun _ => none))).1.2 = none ∧
    (createWorkspace ["screwdriver-cd", "screwdriver"] (World.plain ["/"] (fun _ => none))).1.1.Root
      = "/sd/workspace" ∧
    "/sd/workspace/".data
      <+: (createWorkspace ["screwdriver-cd", "screwdriver"]
            (World.plain ["/"] (fun _ => none))).1.1.Src.data ∧
    "/sd/workspace/".data
      <+: (createWorkspace ["screwdriver-cd", "screwdriver"]
            (World.plain ["/"] (fun _ => none))).1.1.Artifacts.data :=
  ⟨by decide, by decide,
    workspace_containment ["screwdriver-cd", "screwdriver"] (World.plain ["/"] (fun _ => none))
      (by decide) (by decide)⟩

/-- Claim C7: when the derived source path already exists, `createWorkspace`
returns the zero-valued workspace and a non-nil error that names the path; the
only call it makes is the `stat` of the source path (no `mkdirAll`, nothing on
the artifacts path) and the filesystem is unchanged. -/
theorem createWorkspace_src_exists (segs : List String) (w : World)
    (h : Join ["/sd/workspace", Join ("src" :: segs)] ∈ w.dirs) :
    (createWorkspace segs w).1
      = (⟨"", "", ""⟩,
          some ⟨"Cannot create workspace path %q, path already exists.",
            [Operand.str (Join ["/sd/workspace", Join ("src" :: segs)])]⟩) ∧
    (createWorkspace segs w).2.trace
      = w.trace ++ [Call.stat (Join ["/sd/workspace", Join ("src" :: segs)])] ∧
    (createWorkspace segs w).2.dirs = w.dirs := by
  rw [createWorkspace_eq, provision_exists _ _ w h]
  exact ⟨rfl, rfl, rfl⟩

theorem createWorkspace_src_exists_witness :
    Join ["/sd/workspace", Join ["src", "screwdriver-cd", "screwdriver"]]
      ∈ ["/", "/sd/workspace/src/screwdriver-cd/screwdriver"] ∧
    (createWorkspace ["screwdriver-cd", "screwdriver"]
        (World.plain ["/", "/sd/workspace/src/screwdriver-cd/screwdriver"] (fun _ => none))).1
      = (⟨"", "", ""⟩,
          some ⟨"Cannot create workspace path %q, path already exists.",
            [Operand.str "/sd/workspace/src/screwdriver-cd/screwdriver"]⟩) ∧
    (createWorkspace ["screwdriver-cd", "screwdriver"]
        (World.plain ["/", "/sd/workspace/src/screwdriver-cd/screwdriver"] (fun _ => none))).2.trace
      = [Call.stat "/sd/workspace/src/screwdriver-cd/screwdriver"] ∧
    (createWorkspace ["screwdriver-cd", "screwdriver"]
        (World.plain ["/", "/sd/workspace/src/screwdriver-cd/screwdriver"] (fun _ => none))).2.dirs
      = ["/", "/sd/workspace/src/screwdriver-cd/screwdriver"] :=
  ⟨by decide,
    createWorkspace_src_exists ["screwdriver-cd", "screwdriver"]
      (World.plain ["/", "/sd/workspace/src/screwdriver-cd/screwdriver"] (fun _ => none)) (by decide)⟩

/-- Claim C9 as stated fails: the source path does not exist and the artifacts
path exists, but creating the source directory fails.  `createWorkspace` returns
an error and the source directory has not been created. -/
theorem createWorkspace_source_not_created :
    (PlainName "org" ∧ PlainName "repo") ∧
    "/sd/workspace/src/org/repo" ∉ ["/", "/sd", "/sd/workspace", "/sd/workspace/artifacts"] ∧
    "/sd/workspace/artifacts" ∈ ["/", "/sd", "/sd/workspace", "/sd/workspace/artifacts"] ∧
    (createWorkspace ["org", "repo"]
        (World.plain ["/", "/sd", "/sd/workspace", "/sd/workspace/artifacts"]
          (fun p => if p = "/sd/workspace/src/org/repo"
            then some "mkdir /sd/workspace/src: permission denied" else none))).1
      = (⟨"", "", ""⟩,
          some ⟨"Cannot create workspace path %q: %v",
            [Operand.str "/sd/workspace/src/org/repo",
              Operand.err "mkdir /sd/workspace/src: permission denied"]⟩) ∧
    "/sd/workspace/src/org/repo"
      ∉ (createWorkspace ["org", "repo"]
          (World.plain ["/", "/sd", "/sd/workspace", "/sd/workspace/artifacts"]
            (fun p => if p = "/sd/workspace/src/org/repo"
              then some "mkdir /sd/workspace/src: permission denied" else none))).2.dirs := by
  decide

/-- Claim C9 as the code has it: for org and repo plain directory names and a
filesystem in which `/sd/workspace/src/<org>/<repo>` does not exist and its
creation succeeds, but `/sd/workspace/artifacts` already exists or its creation
fails, `createWorkspace` returns a non-nil error and the zero-valued workspace,
yet `mkdirAll` has been called on the source path and the source directory
exists after the call. -/
theorem createWorkspace_no_rollback (org repo : String) (w : World)
    (ho : PlainName org) (hr : PlainName repo)
    (hsrc : "/sd/workspace/src/" ++ org ++ "/" ++ repo ∉ w.dirs)
    (hm1 : w.mkdirErr ("/sd/workspace/src/" ++ org ++ "/" ++ repo) = none)
    (hart : "/sd/workspace/artifacts" ∈ w.dirs ∨ w.mkdirErr "/sd/workspace/artifacts" ≠ none) :
    (createWorkspace [org, repo] w).1.2 ≠ none ∧
    (createWorkspace [org, repo] w).1.1 = ⟨"", "", ""⟩ ∧
    Call.mkdirAll ("/sd/workspace/src/" ++ org ++ "/" ++ repo) 0o777
      ∈ (createWorkspace [org, repo] w).2.trace ∧
    "/sd/workspace/src/" ++ org ++ "/" ++ repo ∈ (createWorkspace [org, repo] w).2.dirs := by
  rw [createWorkspace_eq, Join_root_src_plain org repo ho hr, provision_step _ _ w hsrc hm1]
  by_cases ha : "/sd/workspace/artifacts"
      ∈ w.dirs ++ mkdirChain ("/sd/workspace/src/" ++ org ++ "/" ++ repo)
          ++ w.aliases ("/sd/workspace/src/" ++ org ++ "/" ++ repo)
  · have hstep := provision_exists "/sd/workspace/artifacts" []
      { w with dirs := w.dirs ++ mkdirChain ("/sd/workspace/src/" ++ org ++ "/" ++ repo)
                  ++ w.aliases ("/sd/workspace/src/" ++ org ++ "/" ++ repo),
               trace := w.trace ++ [Call.stat ("/sd/workspace/src/" ++ org ++ "/" ++ repo),
                  Call.mkdirAll ("/sd/workspace/src/" ++ org ++ "/" ++ repo) 0o777] } ha
    rw [hstep]
    refine ⟨by simp, rfl, by simp, ?_⟩
    simp only [List.mem_append]
    exact Or.inl (Or.inr (mkdirChain_self _))
  · have hnot : "/sd/workspace/artifacts" ∉ w.dirs :=
      fun h => ha (List.mem_append_left _ (List.mem_append_left _ h))
    have hne : w.mkdirErr "/sd/workspace/artifacts" ≠ none := by
      rcases hart with h | h
      · exact absurd h hnot
      · exact h
    cases hm : w.mkdirErr "/sd/workspace/artifacts" with
    | none => exact absurd hm hne
    | some e =>
      have hstep := provision_fail "/sd/workspace/artifacts" []
        { w with dirs := w.dirs ++ mkdirChain ("/sd/workspace/src/" ++ org ++ "/" ++ repo)
                    ++ w.aliases ("/sd/workspace/src/" ++ org ++ "/" ++ repo),
                 trace := w.trace ++ [Call.stat ("/sd/workspace/src/" ++ org ++ "/" ++ repo),
                    Call.mkdirAll ("/sd/workspace/src/" ++ org ++ "/" ++ repo) 0o777] } e ha hm
      rw [hstep]
      refine ⟨by simp, rfl, by simp, ?_⟩
      simp only [List.mem_append]
      exact Or.inl (Or.inl (Or.inr (mkdirChain_self _)))

theorem createWorkspace_no_rollback_witness :
    (PlainName "org" ∧ PlainName "repo") ∧
    "/sd/workspace/src/org/repo" ∉ ["/", "/sd", "/sd/workspace", "/sd/workspace/artifacts"] ∧
    "/sd/workspace/artifacts" ∈ ["/", "/sd", "/sd/workspace", "/sd/workspace/artifacts"] ∧
    (createWorkspace ["org", "repo"]
        (World.plain ["/", "/sd", "/sd/workspace", "/sd/workspace/artifacts"] (fun _ => none))).1.2 ≠ none ∧
    (createWorkspace ["org", "repo"]
        (World.plain ["/", "/sd", "/sd/workspace", "/sd/workspace/artifacts"] (fun _ => none))).1.1
      = ⟨"", "", ""⟩ ∧
    Call.mkdirAll "/sd/workspace/src/org/repo" 0o777
      ∈ (createWorkspace ["org", "repo"]
          (World.plain ["/", "/sd", "/sd/workspace", "/sd/workspace/artifacts"] (fun _ => none))).2.trace ∧
    "/sd/workspace/src/org/repo"
      ∈ (createWorkspace ["org", "repo"]
          (World.plain ["/", "/sd", "/sd/workspace", "/sd/workspace/artifacts"] (fun _ => none))).2.dirs :=
  ⟨by decide, by decide, by decide,
    createWorkspace_no_rollback "org" "repo"
      (World.plain ["/", "/sd", "/sd/workspace", "/sd/workspace/artifacts"] (fun _ => none))
      (by decide) (by decide) (by decide) rfl (Or.inl (by decide))⟩

/-! ## Facts about `launch` -/

/-- Claim C8: `launch` stops at the first failed lookup.  If `BuildFromID` fails
the error carries the build ID and the cause and the only call made is
`BuildFromID`; if `JobFromID` fails the error carries the job ID and the cause and
the only calls are `BuildFromID` and `JobFromID`; if `PipelineFromID` fails the
error carries the pipeline ID and the cause and the only calls are the three
lookups.  In each case there is no `stat` and no `mkdirAll` call and the
filesystem is unchanged. -/
theorem launch_short_circuit (api : API) (buildID : String) (w : World) :
    (∀ b e, api.BuildFromID buildID = (b, some e) →
      launch api buildID w
        = (some ⟨"fetching build ID %q: %v", [Operand.str buildID, Operand.err e]⟩,
            { w with trace := w.trace ++ [Call.BuildFromID buildID] })) ∧
    (∀ b j e, api.BuildFromID buildID = (b, none) → api.JobFromID b.JobID = (j, some e) →
      launch api buildID w
        = (some ⟨"fetching Job ID %q: %v", [Operand.str b.JobID, Operand.err e]⟩,
            { w with trace := w.trace ++ [Call.BuildFromID buildID, Call.JobFromID b.JobID] })) ∧
    (∀ b j p e, api.BuildFromID buildID = (b, none) → api.JobFromID b.JobID = (j, none) →
      api.PipelineFromID j.PipelineID = (p, some e) →
      launch api buildID w
        = (some ⟨"fetching Pipeline ID %q: %v", [Operand.str j.PipelineID, Operand.err e]⟩,
            { w with trace := w.trace ++ [Call.BuildFromID buildID, Call.JobFromID b.JobID,
                Call.PipelineFromID j.PipelineID] })) := by
  refine ⟨?_, ?_, ?_⟩
  · intro b e hb
    simp [launch, hb, World.log]
  · intro b j e hb hj
    simp [launch, hb, hj, World.log]
  · intro b j p e hb hj hp
    simp [launch, hb, hj, hp, World.log]

theorem launch_short_circuit_witness :
    (launch (exampleAPI (some "build: 404") none none "") "build-1" (World.plain ["/"] (fun _ => none))
      = (some ⟨"fetching build ID %q: %v", [Operand.str "build-1", Operand.err "build: 404"]⟩,
          { World.plain ["/"] (fun _ => none) with trace := [Call.BuildFromID "build-1"] })) ∧
    (launch (exampleAPI none (some "job: 404") none "") "build-1" (World.plain ["/"] (fun _ => none))
      = (some ⟨"fetching Job ID %q: %v", [Operand.str "job-1", Operand.err "job: 404"]⟩,
          { World.plain ["/"] (fun _ => none) with trace := [Call.BuildFromID "build-1", Call.JobFromID "job-1"] })) ∧
    (launch (exampleAPI none none (some "pipeline: 404") "") "build-1"
        (World.plain ["/"] (fun _ => none))
      = (some ⟨"fetching Pipeline ID %q: %v",
            [Operand.str "pipeline-1", Operand.err "pipeline: 404"]⟩,
          { World.plain ["/"] (fun _ => none) with trace := [Call.BuildFromID "build-1", Call.JobFromID "job-1",
              Call.PipelineFromID "pipeline-1"] })) :=
  ⟨(launch_short_circuit (exampleAPI (some "build: 404") none none "") "build-1"
      (World.plain ["/"] (fun _ => none))).1 ⟨"job-1"⟩ "build: 404" rfl,
    (launch_short_circuit (exampleAPI none (some "job: 404") none "") "build-1"
      (World.plain ["/"] (fun _ => none))).2.1 ⟨"job-1"⟩ ⟨"pipeline-1"⟩ "job: 404" rfl rfl,
    (launch_short_circuit (exampleAPI none none (some "pipeline: 404") "") "build-1"
      (World.plain ["/"] (fun _ => none))).2.2 ⟨"job-1"⟩ ⟨"pipeline-1"⟩ ⟨""⟩ "pipeline: 404" rfl rfl rfl⟩

theorem parseScmURL_error_format (url : String) (e : GoError)
    (h : (parseScmURL url).2 = some e) : e.format = "Unable to parse SCM URL %v, match: %q" := by
  unfold parseScmURL at h
  simp only at h
  split at h
  · simp only [Option.some.injEq] at h
    rw [← h]
  · cases h

theorem createWorkspace_error_format (segs : List String) (w : World) (e : GoError)
    (h : (createWorkspace segs w).1.2 = some e) :
    e.format = "Cannot create workspace path %q, path already exists." ∨
    e.format = "Cannot create workspace path %q: %v" := by
  rw [createWorkspace_eq] at h
  cases hprov : provision [Join ["/sd/workspace", Join ("src" :: segs)],
      "/sd/workspace/artifacts"] w with
  | mk err w' =>
    rw [hprov] at h
    cases err with
    | none => simp at h
    | some e' =>
      simp only [Option.some.injEq] at h
      subst h
      exact provision_error_format _ w e' (by rw [hprov])

theorem Join_root_src_empty : Join ["/sd/workspace", Join ["src", "", ""]] = "/sd/workspace/src" := by
  decide

/-- Claim C10: when the three lookups succeed and `parseScmURL` fails on the
pipeline locator, `launch` goes on: it calls `createWorkspace` with the two
empty segments of the zero-valued `scmPath`, whose target paths are
`/sd/workspace/src` and `/sd/workspace/artifacts`, and returns exactly the error
of that call, which is never the parse error and is nil when neither path
exists and their creation does not fail. -/
theorem launch_swallows_parse_failure (api : API) (buildID : String) (w : World)
    (b : Build) (j : Job) (p : Pipeline)
    (hb : api.BuildFromID buildID = (b, none))
    (hj : api.JobFromID b.JobID = (j, none))
    (hp : api.PipelineFromID j.PipelineID = (p, none))
    (hparse : (parseScmURL p.ScmURL).2 ≠ none) :
    launch api buildID w
      = ((createWorkspace ["", ""]
            { w with trace := w.trace ++ [Call.BuildFromID buildID, Call.JobFromID b.JobID,
                Call.PipelineFromID j.PipelineID] }).1.2,
          (createWorkspace ["", ""]
            { w with trace := w.trace ++ [Call.BuildFromID buildID, Call.JobFromID b.JobID,
                Call.PipelineFromID j.PipelineID] }).2) ∧
    (launch api buildID w).1 ≠ (parseScmURL p.ScmURL).2 ∧
    (∀ w' : World, createWorkspace ["", ""] w'
      = match provision ["/sd/workspace/src", "/sd/workspace/artifacts"] w' with
        | (some e, w'') => ((Workspace.zero, some e), w'')
        | (none, w'') =>
          ((⟨"/sd/workspace", "/sd/workspace/src", "/sd/workspace/artifacts"⟩, none), w'')) ∧
    ("/sd/workspace/src" ∉ w.dirs → "/sd/workspace/artifacts" ∉ w.dirs →
      w.mkdirErr "/sd/workspace/src" = none → w.mkdirErr "/sd/workspace/artifacts" = none →
      (launch api buildID w).1 = none ∧
      "/sd/workspace/src" ∈ (launch api buildID w).2.dirs ∧
      "/sd/workspace/artifacts" ∈ (launch api buildID w).2.dirs) := by
  have hzero := parseScmURL_failure p.ScmURL hparse
  have hcw : ∀ w' : World, createWorkspace ["", ""] w'
      = match provision ["/sd/workspace/src", "/sd/workspace/artifacts"] w' with
        | (some e, w'') => ((Workspace.zero, some e), w'')
        | (none, w'') =>
          ((⟨"/sd/workspace", "/sd/workspace/src", "/sd/workspace/artifacts"⟩, none), w'') := by
    intro w'
    rw [createWorkspace_eq, Join_root_src_empty]
  have hlaunch : launch api buildID w
      = ((createWorkspace ["", ""]
            { w with trace := w.trace ++ [Call.BuildFromID buildID, Call.JobFromID b.JobID,
                Call.PipelineFromID j.PipelineID] }).1.2,
          (createWorkspace ["", ""]
            { w with trace := w.trace ++ [Call.BuildFromID buildID, Call.JobFromID b.JobID,
                Call.PipelineFromID j.PipelineID] }).2) := by
    simp only [launch, hb, hj, hp, World.log, hzero, scmPath.zero, List.append_assoc,
      List.singleton_append]
    split <;> simp_all
  refine ⟨hlaunch, ?_, hcw, ?_⟩
  · rw [hlaunch]
    simp only
    intro heq
    cases hpe : (parseScmURL p.ScmURL).2 with
    | none => exact hparse hpe
    | some e =>
      rw [hpe] at heq
      have h1 := parseScmURL_error_format _ e hpe
      rcases createWorkspace_error_format _ _ e heq with h2 | h2
      · rw [h1] at h2; revert h2; decide
      · rw [h1] at h2; revert h2; decide
  · intro hs ha hm1 hm2
    rw [hlaunch, hcw]
    have hstep1 := provision_step "/sd/workspace/src" ["/sd/workspace/artifacts"]
      { w with trace := w.trace ++ [Call.BuildFromID buildID, Call.JobFromID b.JobID,
          Call.PipelineFromID j.PipelineID] } hs hm1
    have hna : "/sd/workspace/artifacts" ∉ w.aliases "/sd/workspace/src" :=
      fun h => w.siblings h hm2
    have ha2 : "/sd/workspace/artifacts"
        ∉ w.dirs ++ mkdirChain "/sd/workspace/src" ++ w.aliases "/sd/workspace/src" := by
      simp only [List.mem_append, not_or]
      exact ⟨⟨ha, by decide⟩, hna⟩
    have hstep2 := provision_step "/sd/workspace/artifacts" []
      { w with dirs := w.dirs ++ mkdirChain "/sd/workspace/src" ++ w.aliases "/sd/workspace/src",
               trace := w.trace ++ [Call.BuildFromID buildID, Call.JobFromID b.JobID,
                  Call.PipelineFromID j.PipelineID] ++ [Call.stat "/sd/workspace/src",
                    Call.mkdirAll "/sd/workspace/src" 0o777] } ha2 hm2
    rw [hstep1, hstep2]
    simp only [provision, List.mem_append]
    exact ⟨trivial, Or.inl (Or.inl (Or.inl (Or.inr (by decide)))),
      Or.inl (Or.inr (by decide))⟩

theorem launch_swallows_parse_failure_witness :
    (parseScmURL "git@github.com").2 ≠ none ∧
    (launch (exampleAPI none none none "git@github.com") "build-1" (World.plain ["/"] (fun _ => none))).1
      = none ∧
    "/sd/workspace/src"
      ∈ (launch (exampleAPI none none none "git@github.com") "build-1"
          (World.plain ["/"] (fun _ => none))).2.dirs ∧
    "/sd/workspace/artifacts"
      ∈ (launch (exampleAPI none none none "git@github.com") "build-1"
          (World.plain ["/"] (fun _ => none))).2.dirs :=
  ⟨by decide,
    (launch_swallows_parse_failure (exampleAPI none none none "git@github.com") "build-1"
      (World.plain ["/"] (fun _ => none)) ⟨"job-1"⟩ ⟨"pipeline-1"⟩ ⟨"git@github.com"⟩ rfl rfl rfl
      (by decide)).2.2.2 (by decide) (by decide) rfl rfl⟩

end Launcher
